import Mathlib

/-!
# woodpecker-config-provider: a shallow embedding

A Woodpecker CI configuration webhook.  A request names a repository and a
pipeline; four templates are rendered into (namespace, repo, branch, path); one
of three Git-hosting adapters (Gitea, GitHub, GitLab) lists that directory,
keeps the YAML files, fetches each one, and the handler answers with one
named configuration document per fetched file.

Modelling conventions

* A Go `string` is a Lean `String`, one character for one byte.
  `strings.HasSuffix`, `strings.TrimSuffix` and `strings.Contains` are written
  out on the character list as the Go standard library writes them on the
  byte slice.
* A Go `error` is a value of `Error`: an opaque message or a `%w` wrapping.
* Everything the program reaches through a library (text/template,
  encoding/json, yaml.v3, the three hosting SDKs) is a field of `World`.
  The functions of the program take the world and the process settings as
  arguments and return how they end (`Outcome`: a value, an error, or a
  panic) together with the list of `Event`s (adapter entries and SDK calls)
  they performed, oldest first.
* `debugLog` only prints; it is left out.
-/

namespace Provider

/-! ## Go strings -/

/-- Go `strings.HasSuffix`: `len(s) >= len(suffix) && s[len(s)-len(suffix):] == suffix`. -/
def HasSuffix (s suffix : String) : Bool :=
  decide (s.data.length ≥ suffix.data.length) &&
    decide (s.data.drop (s.data.length - suffix.data.length) = suffix.data)

/-- Go `strings.TrimSuffix`: `s[:len(s)-len(suffix)]` when `HasSuffix(s, suffix)`, else `s`. -/
def TrimSuffix (s suffix : String) : String :=
  if HasSuffix s suffix then ⟨s.data.take (s.data.length - suffix.data.length)⟩ else s

/-- Go `strings.HasPrefix` on character lists. -/
def startsWith (s sub : List Char) : Bool :=
  decide (s.length ≥ sub.length) && decide (s.take sub.length = sub)

/-- Substring search on character lists: some suffix of `s` starts with `sub`. -/
def containsChars (s sub : List Char) : Bool :=
  match s with
  | [] => startsWith [] sub
  | c :: rest => startsWith (c :: rest) sub || containsChars rest sub

/-- Go `strings.Contains`. -/
def Contains (s substr : String) : Bool := containsChars s.data substr.data

/-- The ASCII branch of Go `strings.ToLower`: `'A'..'Z'` are shifted by `'a' - 'A'`. -/
def lowerByte (c : Char) : Char :=
  if 65 ≤ c.toNat ∧ c.toNat ≤ 90 then Char.ofNat (c.toNat + 32) else c

/-- Go `strings.ToLower`.  A string of ASCII characters only is returned as it is
when it has no upper-case letter and is mapped letter by letter otherwise; any
other string goes through `Map(unicode.ToLower, s)`, whose case table belongs
to the standard library and is the argument `unicodeMap`. -/
def ToLower (unicodeMap : String → String) (s : String) : String :=
  if s.data.all (fun c => decide (c.toNat < 128)) then
    if s.data.any (fun c => decide (65 ≤ c.toNat ∧ c.toNat ≤ 90)) then
      ⟨s.data.map lowerByte⟩
    else s
  else unicodeMap s

/-! ## Errors -/

/-- A Go `error`: a library or `fmt.Errorf` message, or `fmt.Errorf("<text>: %w", err)`. -/
inductive Error where
  | msg (text : String)
  | wrap (text : String) (inner : Error)
  deriving DecidableEq, Repr

/-- The string `err.Error()` of an error. -/
def Error.message : Error → String
  | .msg text => text
  | .wrap text inner => text ++ ": " ++ inner.message

/-- How a Go function that returns `(value, error)` ends: with a value and a
nil error, with an error, or by a panic that unwinds through its callers. -/
inductive Outcome (α : Type) where
  | ok (value : α)
  | error (err : Error)
  | panic (reason : String)
  deriving DecidableEq, Repr

/-- The panic of calling a method that reads a field through a nil pointer. -/
def nilDereference : String :=
  "runtime error: invalid memory address or nil pointer dereference"

/-! ## Data model (main.go) -/

structure RepoInfo where
  Name : String
  Owner : String
  Namespace : String
  FullName : String
  CloneURL : String
  Branch : String
  deriving DecidableEq, Repr

structure PipelineInfo where
  Branch : String
  Commit : String
  Ref : String
  deriving DecidableEq, Repr

structure ConfigInfo where
  Data : String
  deriving DecidableEq, Repr

structure ConfigRequest where
  Repo : RepoInfo
  Pipeline : PipelineInfo
  Config : ConfigInfo
  deriving DecidableEq, Repr

structure TemplateData where
  Repo : RepoInfo
  Pipeline : PipelineInfo
  deriving DecidableEq, Repr

structure ConfigFile where
  Name : String
  Data : String
  deriving DecidableEq, Repr

/-- The response document.  `Configs` is a Go slice; the handler only ever
builds it by `append` from `nil`, so the empty list stands for the nil slice. -/
structure ConfigResponse where
  Configs : List ConfigFile
  deriving DecidableEq, Repr

/-- The uniform file record of the three adapters (`Type_` is the Go field `Type`). -/
structure GiteaFile where
  Name : String
  Path : String
  Type_ : String
  Content : String
  deriving DecidableEq, Repr

/-! ## The outside world -/

/-- One observable step of a run: entering an adapter function of this program
(`op` is its Go name) or invoking an SDK operation (`op` is `sdk.Method`), with
the string arguments it received. -/
structure Event where
  op : String
  args : List String
  deriving DecidableEq, Repr

/-- An entry of a Gitea directory listing (`gitea.ContentsResponse`). -/
structure ContentsResponse where
  Name : String
  Path : String
  Type_ : String
  deriving DecidableEq, Repr

/-- A Gitea SDK client: `ListContents(owner, repo, ref, filepath)` and
`GetFile(owner, repo, ref, filepath)`, the latter giving the raw file bytes. -/
structure GiteaClient where
  ListContents : String → String → String → String → Except Error (List ContentsResponse)
  GetFile : String → String → String → String → Except Error String

/-- A GitHub content object (`*github.RepositoryContent`) seen through its
nil-safe getters `GetType`, `GetName`, `GetPath`; `Encoding` and `Content` are
the optional fields the SDK method `GetContent` reads. -/
structure RepositoryContent where
  Type_ : String
  Name : String
  Path : String
  Encoding : Option String
  Content : Option String
  deriving DecidableEq, Repr

/-- The two content results of `Repositories.GetContents`: a file object for a
file path and a listing for a directory path; the one that does not apply is
nil (`none`, respectively the empty list). -/
structure GetContentsResult where
  fileContent : Option RepositoryContent
  directoryContent : List RepositoryContent
  deriving DecidableEq, Repr

/-- A GitHub SDK client: `Repositories.GetContents(ctx, owner, repo, path, {Ref: ref})`
taking (owner, repo, path, ref), and the SDK method `GetContent` of a file
object, which decodes the content the way the object says it is encoded.
`GetContent` reads the fields of its receiver, so it is defined on a file
object only; called on a nil pointer it panics. -/
structure GithubClient where
  GetContents : String → String → String → String → Except Error GetContentsResult
  GetContent : RepositoryContent → Except Error String

/-- An entry of a GitLab tree listing (`gitlab.TreeNode`). -/
structure TreeNode where
  Name : String
  Path : String
  Type_ : String
  deriving DecidableEq, Repr

/-- A GitLab file object (`gitlab.File`); `Content` is as the API sent it. -/
structure GitlabFile where
  Content : String
  deriving DecidableEq, Repr

/-- A GitLab SDK client: `Repositories.ListTree(projectID, {Path, Ref, PerPage: 100})`
taking (projectID, path, ref), and `RepositoryFiles.GetFile(projectID, path, {Ref})`
taking (projectID, path, ref). -/
structure GitlabClient where
  ListTree : String → String → String → Except Error (List TreeNode)
  GetFile : String → String → String → Except Error GitlabFile

/-- Everything the program calls but does not define. -/
structure World where
  /-- `strings.ToLower` beyond ASCII: `Map(unicode.ToLower, s)`. -/
  unicodeMap : String → String
  /-- `template.New("config").Parse(s)`; a parsed template is its `Execute`,
  from the data to the text written into the buffer. -/
  templateParse : String → Except Error (TemplateData → Except Error String)
  /-- `json.Unmarshal(body, &req)` into a zero `ConfigRequest`. -/
  jsonUnmarshal : String → Except Error ConfigRequest
  /-- `yaml.Unmarshal([]byte(content), &testData)`. -/
  yamlUnmarshal : String → Except Error Unit
  /-- `base64.StdEncoding.DecodeString`. -/
  base64Decode : String → Except Error String
  /-- `gitea.NewClient(url, SetToken(token), SetHTTPClient(..))`. -/
  giteaNewClient : String → String → Except Error GiteaClient
  /-- `github.NewClient(httpClient).WithAuthToken(token)`. -/
  githubNewClient : String → GithubClient
  /-- `client.WithEnterpriseURLs(baseURL, uploadURL)` on the client made for `token`. -/
  githubWithEnterpriseURLs : String → String → String → Except Error GithubClient
  /-- `gitlab.NewClient(token, WithBaseURL(url), WithHTTPClient(..))`. -/
  gitlabNewClient : String → String → Except Error GitlabClient

/-- The package-level configuration variables of main.go, read once at start. -/
structure Settings where
  Debug : Bool
  ServerType : String
  Token : String
  ServerURL : String
  NamespaceTemplate : String
  RepoNameTemplate : String
  BranchTemplate : String
  PathTemplate : String
  GiteaURL : String
  GiteaToken : String
  deriving DecidableEq, Repr

/-! ## main.go: templates and the dispatcher -/

/-- Source: `renderTemplate` (main.go 122-136). -/
def renderTemplate (w : World) (tmplStr : String) (data : TemplateData) : Except Error String :=
  match w.templateParse tmplStr with
  | .error err => .error (.wrap "parse template error" err)
  | .ok tmpl =>
    match tmpl data with
    | .error err => .error (.wrap "execute template error" err)
    | .ok result => .ok result

/-- The test of all three loops: `kind == fileKind && (HasSuffix(name, ".yml") ||
HasSuffix(name, ".yaml"))`, with `fileKind` "file" for Gitea and GitHub and
"blob" for GitLab. -/
def isYamlFile (fileKind kind name : String) : Bool :=
  decide (kind = fileKind) && (HasSuffix name ".yml" || HasSuffix name ".yaml")

/-- The `for _, content := range contentsList` loop of `fetchFilesFromGitea`
(main.go 212-238), from the current `result` and trace on. -/
def giteaLoop (client : GiteaClient) (namespace_ repo branch : String) :
    List ContentsResponse → List GiteaFile → List Event → List GiteaFile × List Event
  | [], result, trace => (result, trace)
  | content :: rest, result, trace =>
    if isYamlFile "file" content.Type_ content.Name then
      match client.GetFile namespace_ repo branch content.Path with
      | .error _ =>
        giteaLoop client namespace_ repo branch rest result
          (trace ++ [⟨"gitea.GetFile", [namespace_, repo, branch, content.Path]⟩])
      | .ok fileContent =>
        giteaLoop client namespace_ repo branch rest
          (result ++ [⟨content.Name, content.Path, "file", fileContent⟩])
          (trace ++ [⟨"gitea.GetFile", [namespace_, repo, branch, content.Path]⟩])
    else giteaLoop client namespace_ repo branch rest result trace

/-- Source: `fetchFilesFromGitea` (main.go 184-242). -/
def fetchFilesFromGitea (w : World) (cfg : Settings) (namespace_ repo branch path : String) :
    Outcome (List GiteaFile) × List Event :=
  let t0 : List Event := [⟨"fetchFilesFromGitea", [namespace_, repo, branch, path]⟩]
  let t1 := t0 ++ [⟨"gitea.NewClient", [cfg.GiteaURL, cfg.GiteaToken]⟩]
  match w.giteaNewClient cfg.GiteaURL cfg.GiteaToken with
  | .error err => (.error err, t1)
  | .ok client =>
    let t2 := t1 ++ [⟨"gitea.ListContents", [namespace_, repo, branch, path]⟩]
    match client.ListContents namespace_ repo branch path with
    | .error err => (.error err, t2)
    | .ok contentsList =>
      let (result, trace) := giteaLoop client namespace_ repo branch contentsList [] t2
      (.ok result, trace)

/-- The `for _, content := range directoryContent` loop of `fetchFilesFromGitHub`
(github_gitlab.go 53-87).  The per-file call may answer without an error and
without a file object (`fileContent` nil); `fileContent.GetContent()` in line
69 is called unguarded and panics there, which ends the loop. -/
def githubLoop (client : GithubClient) (namespace_ repo branch : String) :
    List RepositoryContent → List GiteaFile → List Event →
    Outcome (List GiteaFile) × List Event
  | [], result, trace => (.ok result, trace)
  | content :: rest, result, trace =>
    if isYamlFile "file" content.Type_ content.Name then
      match client.GetContents namespace_ repo content.Path branch with
      | .error _ =>
        githubLoop client namespace_ repo branch rest result
          (trace ++ [⟨"github.GetContents", [namespace_, repo, content.Path, branch]⟩])
      | .ok got =>
        match got.fileContent with
        | none =>
          (.panic nilDereference,
            trace ++ [⟨"github.GetContents", [namespace_, repo, content.Path, branch]⟩])
        | some fileContent =>
          match client.GetContent fileContent with
          | .error _ =>
            githubLoop client namespace_ repo branch rest result
              (trace ++ [⟨"github.GetContents", [namespace_, repo, content.Path, branch]⟩])
          | .ok decodedContent =>
            githubLoop client namespace_ repo branch rest
              (result ++ [⟨content.Name, content.Path, "file", decodedContent⟩])
              (trace ++ [⟨"github.GetContents", [namespace_, repo, content.Path, branch]⟩])
    else githubLoop client namespace_ repo branch rest result trace

/-- The client of `fetchFilesFromGitHub` (github_gitlab.go 27-37): the public
client, or the enterprise one when `ServerURL` does not name `api.github.com`. -/
def githubClient (w : World) (cfg : Settings) : Except Error GithubClient :=
  if !Contains cfg.ServerURL "api.github.com" then
    w.githubWithEnterpriseURLs cfg.Token cfg.ServerURL cfg.ServerURL
  else .ok (w.githubNewClient cfg.Token)

/-- Source: `fetchFilesFromGitHub` (github_gitlab.go 15-91). -/
def fetchFilesFromGitHub (w : World) (cfg : Settings) (namespace_ repo branch path : String) :
    Outcome (List GiteaFile) × List Event :=
  let t0 : List Event := [⟨"fetchFilesFromGitHub", [namespace_, repo, branch, path]⟩]
  match githubClient w cfg with
  | .error err => (.error err, t0)
  | .ok client =>
    let t1 := t0 ++ [⟨"github.GetContents", [namespace_, repo, path, branch]⟩]
    match client.GetContents namespace_ repo path branch with
    | .error err => (.error err, t1)
    | .ok got => githubLoop client namespace_ repo branch got.directoryContent [] t1

/-- The `for _, tree := range trees` loop of `fetchFilesFromGitLab`
(github_gitlab.go 136-172). -/
def gitlabLoop (w : World) (client : GitlabClient) (projectID branch : String) :
    List TreeNode → List GiteaFile → List Event → List GiteaFile × List Event
  | [], result, trace => (result, trace)
  | tree :: rest, result, trace =>
    if isYamlFile "blob" tree.Type_ tree.Name then
      match client.GetFile projectID tree.Path branch with
      | .error _ =>
        gitlabLoop w client projectID branch rest result
          (trace ++ [⟨"gitlab.GetFile", [projectID, tree.Path, branch]⟩])
      | .ok file =>
        match w.base64Decode file.Content with
        | .error _ =>
          gitlabLoop w client projectID branch rest result
            (trace ++ [⟨"gitlab.GetFile", [projectID, tree.Path, branch]⟩])
        | .ok decodedContent =>
          gitlabLoop w client projectID branch rest
            (result ++ [⟨tree.Name, tree.Path, "file", decodedContent⟩])
            (trace ++ [⟨"gitlab.GetFile", [projectID, tree.Path, branch]⟩])
    else gitlabLoop w client projectID branch rest result trace

/-- Source: `fetchFilesFromGitLab` (github_gitlab.go 94-176). -/
def fetchFilesFromGitLab (w : World) (cfg : Settings) (namespace_ repo branch path : String) :
    Outcome (List GiteaFile) × List Event :=
  let t0 : List Event := [⟨"fetchFilesFromGitLab", [namespace_, repo, branch, path]⟩]
  match w.gitlabNewClient cfg.Token cfg.ServerURL with
  | .error err => (.error err, t0)
  | .ok client =>
    let projectID := namespace_ ++ "/" ++ repo
    let t1 := t0 ++ [⟨"gitlab.ListTree", [projectID, path, branch]⟩]
    match client.ListTree projectID path branch with
    | .error err => (.error err, t1)
    | .ok trees =>
      let (result, trace) := gitlabLoop w client projectID branch trees [] t1
      (.ok result, trace)

/-- Source: `fetchFilesFromGitServer` (main.go 139-181). -/
def fetchFilesFromGitServer (w : World) (cfg : Settings) (req : ConfigRequest) :
    Outcome (List GiteaFile) × List Event :=
  let data : TemplateData := ⟨req.Repo, req.Pipeline⟩
  match renderTemplate w cfg.NamespaceTemplate data with
  | .error err => (.error (.wrap "render namespace template" err), [])
  | .ok namespace_ =>
    match renderTemplate w cfg.RepoNameTemplate data with
    | .error err => (.error (.wrap "render reponame template" err), [])
    | .ok repoName =>
      match renderTemplate w cfg.BranchTemplate data with
      | .error err => (.error (.wrap "render branch template" err), [])
      | .ok branch =>
        match renderTemplate w cfg.PathTemplate data with
        | .error err => (.error (.wrap "render path template" err), [])
        | .ok path =>
          let lowered := ToLower w.unicodeMap cfg.ServerType
          if lowered = "gitea" then fetchFilesFromGitea w cfg namespace_ repoName branch path
          else if lowered = "github" then fetchFilesFromGitHub w cfg namespace_ repoName branch path
          else if lowered = "gitlab" then fetchFilesFromGitLab w cfg namespace_ repoName branch path
          else (.error (.msg ("unsupported server type: " ++ cfg.ServerType)), [])

/-! ## main.go: the request handler -/

/-- What the handler wrote as the response body: nothing, a text line
(`http.Error`), or the JSON encoding of a response document.  `panic` stands
for a handler that wrote nothing and was left by a panic, which net/http
answers by closing the connection. -/
inductive Body where
  | empty
  | text (line : String)
  | json (response : ConfigResponse)
  | panic (reason : String)
  deriving DecidableEq, Repr

/-- The HTTP response of the handler; `status` is 0 when `WriteHeader` was
never called. -/
structure Response where
  status : Nat
  contentType : Option String
  body : Body
  deriving DecidableEq, Repr

/-- Go `http.StatusOK`. -/
def StatusOK : Nat := 200

/-- Go `http.StatusNoContent`. -/
def StatusNoContent : Nat := 204

/-- Go `http.StatusBadRequest`. -/
def StatusBadRequest : Nat := 400

/-- The name-stripping step of the response loop (main.go 283-284):
`name := strings.TrimSuffix(file.Name, ".yml"); name = strings.TrimSuffix(name, ".yaml")`. -/
def stripName (fileName : String) : String :=
  TrimSuffix (TrimSuffix fileName ".yml") ".yaml"

/-- The `for _, file := range files` loop of `handleConfigRequest`
(main.go 281-301): validate (result only logged), then append. -/
def configLoop (w : World) : List GiteaFile → List ConfigFile → List Event →
    List ConfigFile × List Event
  | [], configs, trace => (configs, trace)
  | file :: rest, configs, trace =>
    let name := stripName file.Name
    let _validated := w.yamlUnmarshal file.Content
    configLoop w rest (configs ++ [⟨name, file.Content⟩])
      (trace ++ [⟨"yaml.Unmarshal", [file.Content]⟩])

/-- The assignment `req.Repo.Namespace = req.Repo.Owner` (main.go 262). -/
def copyOwner (req : ConfigRequest) : ConfigRequest :=
  { req with Repo := { req.Repo with Namespace := req.Repo.Owner } }

/-- Source: `handleConfigRequest` (main.go 245-323); `body` is `io.ReadAll(r.Body)`.
A failed parse is answered by `http.Error(w, err.Error(), http.StatusBadRequest)`. -/
def handleConfigRequest (w : World) (cfg : Settings) (body : String) : Response × List Event :=
  match w.jsonUnmarshal body with
  | .error err => (⟨StatusBadRequest, some "text/plain; charset=utf-8", .text (err.message ++ "\n")⟩, [])
  | .ok parsed =>
    let req : ConfigRequest := copyOwner parsed
    match fetchFilesFromGitServer w cfg req with
    | (.error _, trace) => (⟨StatusNoContent, none, .empty⟩, trace)
    | (.panic reason, trace) => (⟨0, none, .panic reason⟩, trace)
    | (.ok files, trace) =>
      let (configs, trace2) := configLoop w files [] trace
      (⟨StatusOK, some "application/json; charset=utf-8", .json ⟨configs⟩⟩, trace2)

/-! ## Specification vocabulary -/

/-- Spec: the name ends, character for character, in `.yml` or in `.yaml`. -/
def EndsInYaml (name : String) : Prop :=
  ∃ base : String, name = base ++ ".yml" ∨ name = base ++ ".yaml"

/-- The events of a trace that are entries into one of the three adapters. -/
def adapterEntries (trace : List Event) : List Event :=
  trace.filter (fun e => decide (e.op = "fetchFilesFromGitea" ∨
    e.op = "fetchFilesFromGitHub" ∨ e.op = "fetchFilesFromGitLab"))

/-- The per-file SDK call the Gitea adapter makes for a listing entry. -/
def giteaFetchEvent (namespace_ repo branch : String) (content : ContentsResponse) : Event :=
  ⟨"gitea.GetFile", [namespace_, repo, branch, content.Path]⟩

/-- The per-file SDK call the GitHub adapter makes for a listing entry. -/
def githubFetchEvent (namespace_ repo branch : String) (content : RepositoryContent) : Event :=
  ⟨"github.GetContents", [namespace_, repo, content.Path, branch]⟩

/-- The per-file SDK call the GitLab adapter makes for a listing entry. -/
def gitlabFetchEvent (projectID branch : String) (tree : TreeNode) : Event :=
  ⟨"gitlab.GetFile", [projectID, tree.Path, branch]⟩

/-- Spec: the content of a Gitea entry when its fetch succeeds, `none` when it fails. -/
def giteaContent (client : GiteaClient) (namespace_ repo branch : String)
    (content : ContentsResponse) : Option String :=
  match client.GetFile namespace_ repo branch content.Path with
  | .ok fileContent => some fileContent
  | .error _ => none

/-- Spec: the content of a GitHub entry when its fetch delivers a file object
and the decode of that object succeeds. -/
def githubContent (client : GithubClient) (namespace_ repo branch : String)
    (content : RepositoryContent) : Option String :=
  match client.GetContents namespace_ repo content.Path branch with
  | .ok got =>
    match got.fileContent with
    | some fileContent =>
      match client.GetContent fileContent with
      | .ok decodedContent => some decodedContent
      | .error _ => none
    | none => none
  | .error _ => none

/-- The per-file call of a GitHub entry answers without an error and without a
file object. -/
def githubNoFile (client : GithubClient) (namespace_ repo branch : String)
    (content : RepositoryContent) : Bool :=
  match client.GetContents namespace_ repo content.Path branch with
  | .ok got => got.fileContent.isNone
  | .error _ => false

/-- The entries of a list up to and including the first that satisfies `p`;
the whole list when none does. -/
def uptoFirst {α : Type} (p : α → Bool) : List α → List α
  | [] => []
  | e :: rest => if p e then [e] else e :: uptoFirst p rest

/-- Spec: the content of a GitLab entry when its fetch and its decode succeed. -/
def gitlabContent (w : World) (client : GitlabClient) (projectID branch : String)
    (tree : TreeNode) : Option String :=
  match client.GetFile projectID tree.Path branch with
  | .ok file =>
    match w.base64Decode file.Content with
    | .ok decodedContent => some decodedContent
    | .error _ => none
  | .error _ => none

/-- Spec: the records of a listing.  `entries` gives name, path and kind of each
entry, `content` the outcome of its fetch; one record per entry that is a
YAML file with a content, in listing order. -/
def recordsOf {α : Type} (fileKind : String) (name path kind : α → String)
    (content : α → Option String) (entries : List α) : List GiteaFile :=
  (entries.filter (fun e => isYamlFile fileKind (kind e) (name e))).filterMap
    (fun e => (content e).map (fun c => ⟨name e, path e, "file", c⟩))

/-- Spec: the response assembler as a map over the records. -/
def documentsOf (files : List GiteaFile) : List ConfigFile :=
  files.map (fun file => ⟨TrimSuffix (TrimSuffix file.Name ".yml") ".yaml", file.Content⟩)

/-! ## Sample runs

A small world for concrete runs: the repository `admin/woodpeckerfiles` holds
the directory `myapp/main` with `build.yml`, `notes.txt` and `deploy.yaml`. -/

/-- A template engine for the sample runs: literal text renders to itself, as in
text/template; it knows no action and rejects a text with an action delimiter. -/
def sampleTemplateParse (text : String) : Except Error (TemplateData → Except Error String) :=
  if Contains text "\x7b\x7b" then .error (.msg "template: config:1: unclosed action")
  else .ok (fun _ => .ok text)

/-- The request the sample body decodes to (`Namespace` has the tag `json:"-"`). -/
def sampleParsed : ConfigRequest :=
  { Repo := ⟨"myapp", "admin", "", "", "", ""⟩
    Pipeline := ⟨"main", "", ""⟩
    Config := ⟨""⟩ }

/-- The body of the sample request. -/
def sampleBody : String :=
  "\x7b\"repo\":\x7b\"name\":\"myapp\",\"owner\":\"admin\"\x7d,\"pipeline\":\x7b\"branch\":\"main\"\x7d\x7d"

/-- A JSON decoder for the sample runs: it knows the sample body. -/
def sampleUnmarshal (body : String) : Except Error ConfigRequest :=
  if body = sampleBody then .ok sampleParsed else .error (.msg "unexpected end of JSON input")

/-- The listing of `myapp/main` as Gitea gives it. -/
def sampleContents : List ContentsResponse :=
  [⟨"build.yml", "myapp/main/build.yml", "file"⟩,
   ⟨"notes.txt", "myapp/main/notes.txt", "file"⟩,
   ⟨"deploy.yaml", "myapp/main/deploy.yaml", "file"⟩]

/-- The raw text of a file of the sample repository. -/
def sampleFile (path : String) : Except Error String :=
  if path = "myapp/main/build.yml" then .ok "steps: []"
  else if path = "myapp/main/notes.txt" then .ok "remember the milk"
  else if path = "myapp/main/deploy.yaml" then .ok "when: []"
  else .error (.msg "404 Not Found")

/-- The sample repository behind Gitea. -/
def sampleGitea : GiteaClient :=
  { ListContents := fun _ _ _ path =>
      if path = "myapp/main" then .ok sampleContents else .error (.msg "404 Not Found")
    GetFile := fun _ _ _ path => sampleFile path }

/-- The sample repository behind GitHub; the SDK method `GetContent` hands out
the content of a file object that names no encoding. -/
def sampleGithub : GithubClient :=
  { GetContents := fun _ _ path _ =>
      if path = "myapp/main" then
        .ok ⟨none, sampleContents.map (fun c => ⟨c.Type_, c.Name, c.Path, none, none⟩)⟩
      else
        match sampleFile path with
        | .ok text => .ok ⟨some ⟨"file", "", path, none, some text⟩, []⟩
        | .error err => .error err
    GetContent := fun file =>
      match file with
      | ⟨_, _, _, none, some text⟩ => .ok text
      | ⟨_, _, _, none, none⟩ => .ok ""
      | _ => .error (.msg "unsupported content encoding") }

/-- The sample repository behind GitLab; contents travel Base64 encoded. -/
def sampleGitlab : GitlabClient :=
  { ListTree := fun _ path _ =>
      if path = "myapp/main" then
        .ok [⟨"build.yml", "myapp/main/build.yml", "blob"⟩,
             ⟨"notes.txt", "myapp/main/notes.txt", "blob"⟩,
             ⟨"deploy.yaml", "myapp/main/deploy.yaml", "blob"⟩]
      else .error (.msg "404 Tree Not Found")
    GetFile := fun _ path _ =>
      if path = "myapp/main/build.yml" then .ok ⟨"c3RlcHM6IFtd"⟩
      else if path = "myapp/main/deploy.yaml" then .ok ⟨"d2hlbjogW10="⟩
      else .error (.msg "404 File Not Found") }

/-- A Base64 decoder for the sample runs: it knows the two sample files. -/
def sampleDecode (text : String) : Except Error String :=
  if text = "c3RlcHM6IFtd" then .ok "steps: []"
  else if text = "d2hlbjogW10=" then .ok "when: []"
  else .error (.msg "illegal base64 data at input byte 0")

/-- The sample world. -/
def sampleWorld : World :=
  { unicodeMap := id
    templateParse := sampleTemplateParse
    jsonUnmarshal := sampleUnmarshal
    yamlUnmarshal := fun _ => .ok ()
    base64Decode := sampleDecode
    giteaNewClient := fun _ _ => .ok sampleGitea
    githubNewClient := fun _ => sampleGithub
    githubWithEnterpriseURLs := fun _ _ _ => .ok sampleGithub
    gitlabNewClient := fun _ _ => .ok sampleGitlab }

/-- Settings of the sample runs: Gitea, and four templates without actions. -/
def sampleSettings : Settings :=
  { Debug := false
    ServerType := "gitea"
    Token := "secret"
    ServerURL := "https://git.local.lan"
    NamespaceTemplate := "admin"
    RepoNameTemplate := "woodpeckerfiles"
    BranchTemplate := "main"
    PathTemplate := "myapp/main"
    GiteaURL := "https://git.local.lan"
    GiteaToken := "secret" }

/-- The sample request after the handler has copied `Owner` into `Namespace`. -/
def sampleRequest : ConfigRequest := copyOwner sampleParsed

/-- A listing of three YAML files; `test.yml` is listed but cannot be fetched. -/
def flakyContents : List ContentsResponse :=
  [⟨"build.yml", "myapp/main/build.yml", "file"⟩,
   ⟨"test.yml", "myapp/main/test.yml", "file"⟩,
   ⟨"deploy.yaml", "myapp/main/deploy.yaml", "file"⟩]

/-- The sample Gitea with the flaky listing. -/
def flakyGitea : GiteaClient :=
  { sampleGitea with ListContents := fun _ _ _ _ => .ok flakyContents }

/-- The sample world with the flaky Gitea. -/
def flakyWorld : World :=
  { sampleWorld with giteaNewClient := fun _ _ => .ok flakyGitea }

/-- The sample Gitea with a directory that holds no YAML file. -/
def bareGitea : GiteaClient :=
  { sampleGitea with
    ListContents := fun _ _ _ _ => .ok [⟨"notes.txt", "myapp/main/notes.txt", "file"⟩] }

/-- The sample world with the bare Gitea. -/
def bareWorld : World :=
  { sampleWorld with giteaNewClient := fun _ _ => .ok bareGitea }

/-- The sample GitHub with a listing of three YAML files; at fetch time the
path of `odd.yml` holds a directory, for which `GetContents` answers with no
error, no file object and the listing of that directory. -/
def oddGithub : GithubClient :=
  { sampleGithub with
    GetContents := fun namespace_ repo path ref =>
      if path = "myapp/main" then
        .ok ⟨none, [⟨"file", "build.yml", "myapp/main/build.yml", none, none⟩,
          ⟨"file", "odd.yml", "myapp/main/odd.yml", none, none⟩,
          ⟨"file", "deploy.yaml", "myapp/main/deploy.yaml", none, none⟩]⟩
      else if path = "myapp/main/odd.yml" then
        .ok ⟨none, [⟨"file", "inner.txt", "myapp/main/odd.yml/inner.txt", none, none⟩]⟩
      else sampleGithub.GetContents namespace_ repo path ref }

/-- The sample world with the odd GitHub. -/
def oddWorld : World :=
  { sampleWorld with
    githubNewClient := fun _ => oddGithub
    githubWithEnterpriseURLs := fun _ _ _ => .ok oddGithub }

/-- The sample GitLab with a listing of three YAML files; `test.yml` cannot be
fetched. -/
def flakyGitlab : GitlabClient :=
  { sampleGitlab with
    ListTree := fun _ _ _ =>
      .ok [⟨"build.yml", "myapp/main/build.yml", "blob"⟩,
           ⟨"test.yml", "myapp/main/test.yml", "blob"⟩,
           ⟨"deploy.yaml", "myapp/main/deploy.yaml", "blob"⟩] }

/-- The sample world with the flaky GitLab. -/
def flakyGitlabWorld : World :=
  { sampleWorld with gitlabNewClient := fun _ _ => .ok flakyGitlab }

/-! ## main.go: configuration from the environment -/

/-- Go `os.Getenv` on an environment `env` (a variable is unset, `none`, or has
a value): the value, or "" when the variable is unset. -/
def Getenv (env : String → Option String) (key : String) : String :=
  (env key).getD ""

/-- Source: `getEnv` (main.go 37-42). -/
def getEnv (env : String → Option String) (key defaultValue : String) : String :=
  if Getenv env key ≠ "" then Getenv env key else defaultValue

/-- Source: `getEnvWithFallback` (main.go 44-55). -/
def getEnvWithFallback (env : String → Option String) (primary fallback defaultValue : String) :
    String :=
  if Getenv env primary ≠ "" then Getenv env primary
  else if Getenv env fallback ≠ "" then Getenv env fallback
  else defaultValue

/-- Source: `getEnvBool` (main.go 57-63). -/
def getEnvBool (env : String → Option String) (key : String) (defaultValue : Bool) : Bool :=
  if Getenv env key = "" then defaultValue
  else decide (Getenv env key = "true" ∨ Getenv env key = "1" ∨ Getenv env key = "yes")

/-- The package-level `var` block of main.go (lines 19-35), evaluated once at
process start in the environment `env`. -/
def loadSettings (env : String → Option String) : Settings :=
  { Debug := getEnvBool env "PLUGIN_DEBUG" false
    ServerType := getEnv env "SERVERTYPE" "gitea"
    Token := getEnv env "TOKEN" ""
    ServerURL := getEnv env "SERVER_URL" "https://git.local.lan"
    NamespaceTemplate := getEnvWithFallback env "WOODPECKER_CONFIG_NAMESPACE_TEMP"
      "DRONE_CONFIG_NAMESPACE_TEMP" "\x7b\x7b .Repo.Owner \x7d\x7d"
    RepoNameTemplate := getEnvWithFallback env "WOODPECKER_CONFIG_REPONAME_TEMP"
      "DRONE_CONFIG_REPONAME_TEMP" "woodpeckerfiles"
    BranchTemplate := getEnvWithFallback env "WOODPECKER_CONFIG_BRANCH_TEMP"
      "DRONE_CONFIG_BRANCH_TEMP" "\x7b\x7b .Pipeline.Branch \x7d\x7d"
    PathTemplate := getEnvWithFallback env "WOODPECKER_CONFIG_YAMLPATH_TEMP"
      "DRONE_CONFIG_YAMLPATH_TEMP" "\x7b\x7b .Repo.Name \x7d\x7d/\x7b\x7b .Pipeline.Branch \x7d\x7d"
    GiteaURL := getEnv env "GITEA_URL" (getEnv env "SERVER_URL" "https://git.local.lan")
    GiteaToken := getEnv env "GITEA_TOKEN" (getEnv env "TOKEN" "") }

/-- An environment for the sample runs: both names of the namespace template
are set, the Drone name of the branch template is set, the Woodpecker name of
the path template is set to the empty string. -/
def sampleEnv (key : String) : Option String :=
  if key = "WOODPECKER_CONFIG_NAMESPACE_TEMP" then some "acme"
  else if key = "DRONE_CONFIG_NAMESPACE_TEMP" then some "legacy"
  else if key = "DRONE_CONFIG_BRANCH_TEMP" then some "ci"
  else if key = "WOODPECKER_CONFIG_YAMLPATH_TEMP" then some ""
  else none

/-! ## Standard Base64 (encoding/base64)

As a byte string, a `String` has one character per byte; `Char.toNat` is the
byte. -/

/-- The alphabet of `base64.StdEncoding`. -/
def base64Alphabet : List Char :=
  "ABCDEFGHIJKLMNOPQRSTUVWXYZabcdefghijklmnopqrstuvwxyz0123456789+/".data

/-- The character of a six-bit value. -/
def encodeSextet (i : Nat) : Char := base64Alphabet.getD i 'A'

/-- The six-bit value of a character of the alphabet (the `decodeMap` of the
encoding), `none` for any other character. -/
def decodeSextet (c : Char) : Option Nat :=
  if base64Alphabet.indexOf c < 64 then some (base64Alphabet.indexOf c) else none

/-- Modelled from the spec: the standard reversible text encoding of §4.2 step 4,
Go `base64.StdEncoding.Encode` on the bytes: three bytes give four characters,
a last group of one or two bytes is padded with `=`. -/
def encodeBytes : List Nat → List Char
  | a :: b :: c :: rest =>
    encodeSextet (a / 4) :: encodeSextet (a % 4 * 16 + b / 16) ::
      encodeSextet (b % 16 * 4 + c / 64) :: encodeSextet (c % 64) :: encodeBytes rest
  | [a, b] =>
    [encodeSextet (a / 4), encodeSextet (a % 4 * 16 + b / 16), encodeSextet (b % 16 * 4), '=']
  | [a] => [encodeSextet (a / 4), encodeSextet (a % 4 * 16), '=', '=']
  | [] => []

/-- Go `base64.StdEncoding.EncodeToString([]byte(src))`. -/
def StdEncodeToString (src : String) : String := ⟨encodeBytes (src.data.map Char.toNat)⟩

/-- The error of a failed decode (`base64.CorruptInputError`, without its offset). -/
def corruptInput : Error := .msg "illegal base64 data"

/-- Modelled from the spec: the decode step of §4.2 step 4, Go
`base64.StdEncoding.Decode` on the characters left after the line breaks are
dropped: four characters give three bytes; `=` is accepted only as the
padding of the last group, with nothing after it; any other character outside
the alphabet and any incomplete group is an error. -/
def decodeChars : List Char → Except Error (List Nat)
  | [] => .ok []
  | c0 :: c1 :: c2 :: c3 :: rest =>
    match decodeSextet c0, decodeSextet c1 with
    | some s0, some s1 =>
      if c2 = '=' then
        if c3 = '=' ∧ rest = [] then .ok [s0 * 4 + s1 / 16] else .error corruptInput
      else
        match decodeSextet c2 with
        | none => .error corruptInput
        | some s2 =>
          if c3 = '=' then
            if rest = [] then .ok [s0 * 4 + s1 / 16, s1 % 16 * 16 + s2 / 4]
            else .error corruptInput
          else
            match decodeSextet c3 with
            | none => .error corruptInput
            | some s3 =>
              match decodeChars rest with
              | .ok bytes =>
                .ok ((s0 * 4 + s1 / 16) :: (s1 % 16 * 16 + s2 / 4) :: (s2 % 4 * 64 + s3) :: bytes)
              | .error err => .error err
    | _, _ => .error corruptInput
  | _ => .error corruptInput

/-- Go `base64.StdEncoding.DecodeString(s)`, the bytes read back as a string;
carriage returns and line feeds in `s` are ignored. -/
def StdDecodeString (s : String) : Except Error String :=
  match decodeChars (s.data.filter (fun c => decide (c ≠ '\r' ∧ c ≠ '\n'))) with
  | .ok bytes => .ok ⟨bytes.map Char.ofNat⟩
  | .error err => .error err

/-- The sample world with the standard Base64 decoder. -/
def base64World : World := { sampleWorld with base64Decode := StdDecodeString }

/-! ## Templates (text/template)

A model of the part of Go text/template the program's templates are written
in: literal text; actions that are one field chain, `{{ .A.B }}`, blanks around
the chain optional; and the control structure `{{ if true }}` or
`{{ if false }}` with an optional `{{ else }}` and its `{{ end }}`, around
literal text and field chains.  On these templates the definitions follow the
lexer, the parser and the evaluator of text/template.  Every other action
(pipelines, functions, variables, nested or other control structures,
comments, trim markers, quoted strings, the bare dot) is outside the model:
`parseTemplate` answers `none` for a template that has one, and no theorem
says anything about such a template, apart from the one thing known of every
text: an action that is never closed makes the parse fail. -/

/-- A node of a parsed template: literal text or a field chain. -/
inductive Node where
  | text (literal : String)
  | field (ident : List String)
  deriving DecidableEq, Repr

/-- What the parser takes from the lexer, action by action: a text or field
node, `if` with a boolean constant, `else`, `end`. -/
inductive Token where
  | node (n : Node)
  | ifConst (cond : Bool)
  | elseAction
  | endAction
  deriving DecidableEq, Repr

/-- A piece of a parsed template: a node at the top level, or an `if` on a
boolean constant with the nodes of its two lists. -/
inductive Block where
  | plain (n : Node)
  | branch (cond : Bool) (yes no : List Node)
  deriving DecidableEq, Repr

/-- Where the parser stands: at the top level, in the first list of an `if`,
or in its `else` list. -/
inductive Mode where
  | top
  | inYes (cond : Bool) (yes : List Node)
  | inNo (cond : Bool) (yes no : List Node)
  deriving DecidableEq, Repr

/-- A value reached from the template data by a field chain. -/
inductive Value where
  | data (d : TemplateData)
  | repo (r : RepoInfo)
  | pipeline (p : PipelineInfo)
  | str (s : String)
  deriving DecidableEq, Repr

/-- The lexer's `isSpace`: blank, tab, carriage return, line feed. -/
def isSpace (c : Char) : Bool :=
  decide (c = ' ' ∨ c = '\t' ∨ c = '\r' ∨ c = '\n')

/-- The lexer's `isAlphaNumeric` on ASCII: underscore, letter or digit. -/
def isAlphaNumeric (c : Char) : Bool :=
  decide (c = '_' ∨ (65 ≤ c.toNat ∧ c.toNat ≤ 90) ∨ (97 ≤ c.toNat ∧ c.toNat ≤ 122) ∨
    (48 ≤ c.toNat ∧ c.toNat ≤ 57))

/-- A field name as the lexer takes it after a dot: a non-empty run of
alphanumeric characters that does not start with a digit. -/
def validIdent (name : List Char) : Bool :=
  match name with
  | [] => false
  | c :: rest => isAlphaNumeric c && !decide (48 ≤ c.toNat ∧ c.toNat ≤ 57) && rest.all isAlphaNumeric

/-- `lexText`: the text before the first left delimiter and the input after it
(`strings.Index(input, "{{")`), `none` when there is no left delimiter. -/
def splitAtLeftDelim : List Char → Option (List Char × List Char)
  | [] => none
  | c :: rest =>
    if c = '{' ∧ rest.head? = some '{' then some ([], rest.tail)
    else
      match splitAtLeftDelim rest with
      | some (text, after) => some (c :: text, after)
      | none => none

/-- The action up to the first right delimiter and the input after it, `none`
when there is no right delimiter. -/
def splitAtRightDelim : List Char → Option (List Char × List Char)
  | [] => none
  | c :: rest =>
    if c = '}' ∧ rest.head? = some '}' then some ([], rest.tail)
    else
      match splitAtRightDelim rest with
      | some (action, after) => some (c :: action, after)
      | none => none

/-- A character of a field chain: alphanumeric or a dot. -/
def isChainChar (c : Char) : Bool := isAlphaNumeric c || decide (c = '.')

/-- The words of an action: its runs of characters between blanks. -/
def actionWords (action : List Char) : List (List Char) :=
  (action.splitOnP isSpace).filter (fun word => !word.isEmpty)

/-- The token of an action, `none` for an action outside the model.  A field
chain is blanks, a dot, field names separated by dots, blanks.  The words
`if true`, `if false`, `else` and `end` are the keyword tokens.  An action
that starts with `{` is rejected as text/template rejects it: the lexer hands
the brace to the parser as a character, and no command starts with one. -/
def parseAction (action : List Char) : Option (Except Error Token) :=
  match action.dropWhile isSpace with
  | '.' :: rest =>
    if (rest.dropWhile isChainChar).all isSpace ∧
        ((rest.takeWhile isChainChar).splitOn '.').all validIdent then
      some (.ok (.node (.field (((rest.takeWhile isChainChar).splitOn '.').map String.mk))))
    else none
  | '\x7b' :: _ => some (.error (.msg "template: config:1: unexpected \"\x7b\" in command"))
  | _ =>
    if actionWords action = ["if".data, "true".data] then some (.ok (.ifConst true))
    else if actionWords action = ["if".data, "false".data] then some (.ok (.ifConst false))
    else if actionWords action = ["else".data] then some (.ok .elseAction)
    else if actionWords action = ["end".data] then some (.ok .endAction)
    else none

/-- The lexer and the parser action by action: text up to a left delimiter, the
action up to the right delimiter, and on with the rest; at most `steps`
actions.  `none` when an action is outside the model or the steps run out,
which they do not when there are more steps than characters. -/
def parseTokens : Nat → List Char → Option (Except Error (List Token))
  | 0, _ => none
  | steps + 1, input =>
    match splitAtLeftDelim input with
    | none => some (.ok (if input = [] then [] else [.node (.text ⟨input⟩)]))
    | some (text, afterLeft) =>
      match splitAtRightDelim afterLeft with
      | none => some (.error (.msg "template: config:1: unclosed action"))
      | some (action, afterRight) =>
        match parseAction action with
        | none => none
        | some (.error err) => some (.error err)
        | some (.ok token) =>
          match parseTokens steps afterRight with
          | none => none
          | some (.error err) => some (.error err)
          | some (.ok tokens) =>
            some (.ok ((if text = [] then [] else [.node (.text ⟨text⟩)]) ++ token :: tokens))

/-- The parser's lists: nodes at the top level, and the two lists of an `if`
up to its `end`.  `none` where the model stops: an `if` inside an `if`, and
`else` or `end` out of place or missing. -/
def buildBlocks : Mode → List Token → Option (List Block)
  | .top, [] => some []
  | .top, .node n :: rest => (buildBlocks .top rest).map (fun blocks => .plain n :: blocks)
  | .top, .ifConst cond :: rest => buildBlocks (.inYes cond []) rest
  | .top, .elseAction :: _ => none
  | .top, .endAction :: _ => none
  | .inYes _ _, [] => none
  | .inYes cond yes, .node n :: rest => buildBlocks (.inYes cond (yes ++ [n])) rest
  | .inYes _ _, .ifConst _ :: _ => none
  | .inYes cond yes, .elseAction :: rest => buildBlocks (.inNo cond yes []) rest
  | .inYes cond yes, .endAction :: rest =>
    (buildBlocks .top rest).map (fun blocks => .branch cond yes [] :: blocks)
  | .inNo _ _ _, [] => none
  | .inNo cond yes no, .node n :: rest => buildBlocks (.inNo cond yes (no ++ [n])) rest
  | .inNo _ _ _, .ifConst _ :: _ => none
  | .inNo _ _ _, .elseAction :: _ => none
  | .inNo cond yes no, .endAction :: rest =>
    (buildBlocks .top rest).map (fun blocks => .branch cond yes no :: blocks)

/-- Some `{{` of the input has no `}}` after it. -/
def hasUnclosed : List Char → Bool
  | [] => false
  | c :: rest =>
    (decide (c = '{' ∧ rest.head? = some '{') && (splitAtRightDelim rest.tail).isNone) ||
      hasUnclosed rest

/-- Modelled from the spec: the parse of §4.1, Go
`template.New("config").Parse(text)`, on the templates of the model: the
blocks of the template, or the error of a malformed one, or `none` for a
template outside the model.  A text in which some `{{` has no `}}` after it is
malformed whatever else it holds: the action that holds this `{{` is never
closed. -/
def parseTemplate (text : String) : Option (Except Error (List Block)) :=
  if hasUnclosed text.data then some (.error (.msg "template: config:1: unclosed action"))
  else
    match parseTokens (text.data.length + 1) text.data with
    | none => none
    | some (.error err) => some (.error err)
    | some (.ok tokens) => (buildBlocks .top tokens).map (fun blocks => .ok blocks)

/-- Field lookup by name, as `reflect.Value.FieldByName` on the three struct
types of main.go; a string has no fields. -/
def fieldOf (v : Value) (name : String) : Option Value :=
  match v with
  | .data d =>
    if name = "Repo" then some (.repo d.Repo)
    else if name = "Pipeline" then some (.pipeline d.Pipeline)
    else none
  | .repo r =>
    if name = "Name" then some (.str r.Name)
    else if name = "Owner" then some (.str r.Owner)
    else if name = "Namespace" then some (.str r.Namespace)
    else if name = "FullName" then some (.str r.FullName)
    else if name = "CloneURL" then some (.str r.CloneURL)
    else if name = "Branch" then some (.str r.Branch)
    else none
  | .pipeline p =>
    if name = "Branch" then some (.str p.Branch)
    else if name = "Commit" then some (.str p.Commit)
    else if name = "Ref" then some (.str p.Ref)
    else none
  | .str _ => none

/-- Evaluation of a field chain from a value (`evalFieldChain`). -/
def evalChain (v : Value) : List String → Except Error Value
  | [] => .ok v
  | name :: rest =>
    match fieldOf v name with
    | none => .error (.msg ("template: config: can't evaluate field " ++ name))
    | some next => evalChain next rest

/-- What `fmt.Fprint` writes for a `RepoInfo`: the fields between braces,
separated by blanks. -/
def printRepo (r : RepoInfo) : String :=
  "\x7b" ++ r.Name ++ " " ++ r.Owner ++ " " ++ r.Namespace ++ " " ++ r.FullName ++ " " ++
    r.CloneURL ++ " " ++ r.Branch ++ "\x7d"

/-- What `fmt.Fprint` writes for a `PipelineInfo`. -/
def printPipeline (p : PipelineInfo) : String :=
  "\x7b" ++ p.Branch ++ " " ++ p.Commit ++ " " ++ p.Ref ++ "\x7d"

/-- What `fmt.Fprint` writes for a value: a string as it is, a struct as its
fields between braces. -/
def Value.print : Value → String
  | .str s => s
  | .repo r => printRepo r
  | .pipeline p => printPipeline p
  | .data d => "\x7b" ++ printRepo d.Repo ++ " " ++ printPipeline d.Pipeline ++ "\x7d"

/-- Execution of the nodes in order; the first failing action ends it. -/
def execNodes (data : TemplateData) : List Node → Except Error String
  | [] => .ok ""
  | .text literal :: rest =>
    match execNodes data rest with
    | .error err => .error err
    | .ok out => .ok (literal ++ out)
  | .field ident :: rest =>
    match evalChain (.data data) ident with
    | .error err => .error err
    | .ok v =>
      match execNodes data rest with
      | .error err => .error err
      | .ok out => .ok (v.print ++ out)

/-- Execution of the blocks in order: a node as it is; of an `if` the first
list when the constant is true and the `else` list when it is false, the
other list is not executed. -/
def execBlocks (data : TemplateData) : List Block → Except Error String
  | [] => .ok ""
  | .plain n :: rest =>
    match execNodes data [n] with
    | .error err => .error err
    | .ok out =>
      match execBlocks data rest with
      | .error err => .error err
      | .ok more => .ok (out ++ more)
  | .branch cond yes no :: rest =>
    match execNodes data (if cond then yes else no) with
    | .error err => .error err
    | .ok out =>
      match execBlocks data rest with
      | .error err => .error err
      | .ok more => .ok (out ++ more)

/-- Modelled from the spec: a world's template engine is the Template
Resolver's engine of §4.1, `Parse` with the parsed template's `Execute`, on
every template of the model: it rejects what the model rejects, and what the
model parses it parses into a template that renders what the model renders
and fails where the model fails.  Nothing is asked of the text of an error,
nor of a template outside the model. -/
def TemplateEngine (w : World) : Prop :=
  ∀ text : String,
    match parseTemplate text with
    | none => True
    | some (.error _) => ∃ err, w.templateParse text = .error err
    | some (.ok blocks) =>
      ∃ tmpl, w.templateParse text = .ok tmpl ∧
        ∀ data : TemplateData,
          match execBlocks data blocks with
          | .ok out => tmpl data = .ok out
          | .error _ => ∃ err, tmpl data = .error err

/-- A template engine for the sample runs: the model where the model is
defined; it knows no other action and rejects a template outside the model. -/
def textTemplateParse (text : String) : Except Error (TemplateData → Except Error String) :=
  match parseTemplate text with
  | some (.ok blocks) => .ok (fun data => execBlocks data blocks)
  | some (.error err) => .error err
  | none => .error (.msg "template: config:1: action unknown to the sample engine")

/-- The sample world with the template engine. -/
def templateWorld : World := { sampleWorld with templateParse := textTemplateParse }

/-- The characters of a field chain, `.A.B`. -/
def chainSource (ident : List String) : List Char :=
  '.' :: ['.'].intercalate (ident.map String.data)

/-- The source of a field-chain action with one blank on each side, `{{ .A.B }}`. -/
def actionSource (ident : List String) : String :=
  ⟨'\x7b' :: '\x7b' :: ' ' :: (chainSource ident ++ [' ', '\x7d', '\x7d'])⟩

/-- The source of a template given as a first literal and then actions, each
followed by a literal (any literal may be empty). -/
def templateSource : String → List (List String × String) → String
  | first, [] => first
  | first, (ident, literal) :: rest => first ++ actionSource ident ++ templateSource literal rest

/-- Spec: the rendering of a template given as literals and field chains: the
literals and the printed values of the chains in order, or the error of the
first chain that names no field. -/
def expectedRender (data : TemplateData) : String → List (List String × String) →
    Except Error String
  | first, [] => .ok first
  | first, (ident, literal) :: rest =>
    match evalChain (.data data) ident with
    | .error err => .error err
    | .ok v =>
      match expectedRender data literal rest with
      | .error err => .error err
      | .ok out => .ok (first ++ v.print ++ out)

/-- The nine field chains of `TemplateData` that end in a string field. -/
def stringFields : List (List String) :=
  [["Repo", "Name"], ["Repo", "Owner"], ["Repo", "Namespace"], ["Repo", "FullName"],
   ["Repo", "CloneURL"], ["Repo", "Branch"],
   ["Pipeline", "Branch"], ["Pipeline", "Commit"], ["Pipeline", "Ref"]]

/-- Spec: the value of a string field chain in the data. -/
def stringFieldValue (data : TemplateData) (ident : List String) : String :=
  match evalChain (.data data) ident with
  | .ok (.str s) => s
  | _ => ""

/-- Spec: the literals and the named string fields concatenated in order. -/
def concatenated (data : TemplateData) : String → List (List String × String) → String
  | first, [] => first
  | first, (ident, literal) :: rest =>
    first ++ stringFieldValue data ident ++ concatenated data literal rest

/-- The literals of a template are free of the left delimiter: no literal
contains `{{`. -/
def LiteralsPlain : String → List (List String × String) → Prop
  | first, [] => ¬ "\x7b\x7b".data <:+: first.data
  | first, (_, literal) :: rest => ¬ "\x7b\x7b".data <:+: first.data ∧ LiteralsPlain literal rest

/-- No literal that stands directly before an action ends in `{`. -/
def NoBraceBeforeAction : String → List (List String × String) → Prop
  | _, [] => True
  | first, (_, literal) :: rest => ¬ "\x7b".data <:+ first.data ∧ NoBraceBeforeAction literal rest

/-! ## Lemmas on Go strings -/

theorem hasSuffix_iff (s t : String) : HasSuffix s t = true ↔ t.data <:+ s.data := by
  unfold HasSuffix
  simp only [Bool.and_eq_true, decide_eq_true_eq, ge_iff_le]
  constructor
  · rintro ⟨_, h⟩
    rw [← h]
    exact List.drop_suffix _ _
  · rintro ⟨u, hu⟩
    rw [← hu]
    simp

theorem hasSuffix_append (b t : String) : HasSuffix (b ++ t) t = true :=
  (hasSuffix_iff _ _).2 ⟨b.data, by simp⟩

theorem trimSuffix_of_not (s t : String) (h : HasSuffix s t = false) : TrimSuffix s t = s := by
  simp [TrimSuffix, h]

theorem trimSuffix_append (b t : String) : TrimSuffix (b ++ t) t = b := by
  unfold TrimSuffix
  rw [if_pos (hasSuffix_append b t)]
  simp

theorem trimSuffix_data (s t : String) (h : HasSuffix s t = true) :
    (TrimSuffix s t).data ++ t.data = s.data := by
  unfold TrimSuffix
  rw [if_pos h]
  obtain ⟨u, hu⟩ := (hasSuffix_iff s t).1 h
  rw [← hu]
  simp

theorem hasSuffix_iff_exists (s t : String) : HasSuffix s t = true ↔ ∃ b : String, s = b ++ t := by
  constructor
  · intro h
    refine ⟨TrimSuffix s t, ?_⟩
    apply String.ext
    rw [String.data_append, trimSuffix_data s t h]
  · rintro ⟨b, rfl⟩
    exact hasSuffix_append b t

theorem isYamlFile_iff (fileKind kind name : String) :
    isYamlFile fileKind kind name = true ↔ kind = fileKind ∧ EndsInYaml name := by
  unfold isYamlFile EndsInYaml
  simp only [Bool.and_eq_true, Bool.or_eq_true, decide_eq_true_eq, hasSuffix_iff_exists]
  constructor
  · rintro ⟨hk, h⟩
    refine ⟨hk, ?_⟩
    rcases h with ⟨b, hb⟩ | ⟨b, hb⟩
    · exact ⟨b, Or.inl hb⟩
    · exact ⟨b, Or.inr hb⟩
  · rintro ⟨hk, b, h⟩
    refine ⟨hk, ?_⟩
    rcases h with hb | hb
    · exact Or.inl ⟨b, hb⟩
    · exact Or.inr ⟨b, hb⟩

theorem lowerByte_of_not_upper (c : Char) (h : ¬ (65 ≤ c.toNat ∧ c.toNat ≤ 90)) :
    lowerByte c = c := by
  simp [lowerByte, h]

theorem toLower_ascii (unicodeMap : String → String) (s : String)
    (h : ∀ c ∈ s.data, c.toNat < 128) : ToLower unicodeMap s = ⟨s.data.map lowerByte⟩ := by
  unfold ToLower
  have hall : (s.data.all (fun c => decide (c.toNat < 128))) = true := by
    simpa [List.all_eq_true] using h
  rw [if_pos hall]
  by_cases hany : (s.data.any (fun c => decide (65 ≤ c.toNat ∧ c.toNat ≤ 90))) = true
  · rw [if_pos hany]
  · rw [if_neg hany]
    apply String.ext
    have hid : ∀ c ∈ s.data, lowerByte c = c := by
      intro c hc
      apply lowerByte_of_not_upper
      intro hu
      apply hany
      rw [List.any_eq_true]
      exact ⟨c, hc, by simpa using hu⟩
    show s.data = s.data.map lowerByte
    rw [List.map_congr_left hid, List.map_id']

/-! ## Lemmas on the adapter loops -/

theorem giteaLoop_eq (client : GiteaClient) (namespace_ repo branch : String)
    (l : List ContentsResponse) (result : List GiteaFile) (trace : List Event) :
    giteaLoop client namespace_ repo branch l result trace =
      (result ++ recordsOf "file" (fun c => c.Name) (fun c => c.Path) (fun c => c.Type_)
          (giteaContent client namespace_ repo branch) l,
       trace ++ (l.filter (fun c => isYamlFile "file" c.Type_ c.Name)).map
          (giteaFetchEvent namespace_ repo branch)) := by
  induction l generalizing result trace with
  | nil => simp [giteaLoop, recordsOf]
  | cons content rest ih =>
    unfold giteaLoop
    by_cases hy : isYamlFile "file" content.Type_ content.Name = true
    · rw [if_pos hy]
      cases hf : client.GetFile namespace_ repo branch content.Path with
      | error e => simp [ih, recordsOf, giteaContent, hy, hf, giteaFetchEvent]
      | ok c => simp [ih, recordsOf, giteaContent, hy, hf, giteaFetchEvent]
    · rw [if_neg hy]
      simp [ih, recordsOf, hy]

theorem githubLoop_eq (client : GithubClient) (namespace_ repo branch : String)
    (l : List RepositoryContent) (result : List GiteaFile) (trace : List Event) :
    githubLoop client namespace_ repo branch l result trace =
      (if (l.filter (fun c => isYamlFile "file" c.Type_ c.Name)).any
            (githubNoFile client namespace_ repo branch)
        then .panic nilDereference
        else .ok (result ++ recordsOf "file" (fun c => c.Name) (fun c => c.Path)
          (fun c => c.Type_) (githubContent client namespace_ repo branch) l),
       trace ++ (uptoFirst (githubNoFile client namespace_ repo branch)
          (l.filter (fun c => isYamlFile "file" c.Type_ c.Name))).map
          (githubFetchEvent namespace_ repo branch)) := by
  induction l generalizing result trace with
  | nil => simp [githubLoop, recordsOf, uptoFirst]
  | cons content rest ih =>
    unfold githubLoop
    by_cases hy : isYamlFile "file" content.Type_ content.Name = true
    · rw [if_pos hy]
      cases hf : client.GetContents namespace_ repo content.Path branch with
      | error e =>
        simp [ih, recordsOf, githubContent, githubNoFile, uptoFirst, hy, hf, githubFetchEvent]
      | ok got =>
        cases hg : got.fileContent with
        | none =>
          simp [githubNoFile, uptoFirst, hy, hf, hg, githubFetchEvent]
        | some file =>
          cases hd : client.GetContent file with
          | error e =>
            simp [ih, recordsOf, githubContent, githubNoFile, uptoFirst, hy, hf, hg, hd,
              githubFetchEvent]
          | ok c =>
            simp [ih, recordsOf, githubContent, githubNoFile, uptoFirst, hy, hf, hg, hd,
              githubFetchEvent]
    · rw [if_neg hy]
      simp [ih, recordsOf, hy]

theorem gitlabLoop_eq (w : World) (client : GitlabClient) (projectID branch : String)
    (l : List TreeNode) (result : List GiteaFile) (trace : List Event) :
    gitlabLoop w client projectID branch l result trace =
      (result ++ recordsOf "blob" (fun c => c.Name) (fun c => c.Path) (fun c => c.Type_)
          (gitlabContent w client projectID branch) l,
       trace ++ (l.filter (fun c => isYamlFile "blob" c.Type_ c.Name)).map
          (gitlabFetchEvent projectID branch)) := by
  induction l generalizing result trace with
  | nil => simp [gitlabLoop, recordsOf]
  | cons tree rest ih =>
    unfold gitlabLoop
    by_cases hy : isYamlFile "blob" tree.Type_ tree.Name = true
    · rw [if_pos hy]
      cases hf : client.GetFile projectID tree.Path branch with
      | error e => simp [ih, recordsOf, gitlabContent, hy, hf, gitlabFetchEvent]
      | ok file =>
        cases hd : w.base64Decode file.Content with
        | error e => simp [ih, recordsOf, gitlabContent, hy, hf, hd, gitlabFetchEvent]
        | ok c => simp [ih, recordsOf, gitlabContent, hy, hf, hd, gitlabFetchEvent]
    · rw [if_neg hy]
      simp [ih, recordsOf, hy]

theorem adapterEntries_append (a b : List Event) :
    adapterEntries (a ++ b) = adapterEntries a ++ adapterEntries b := by
  simp [adapterEntries]

theorem adapterEntries_giteaFetch (namespace_ repo branch : String) (l : List ContentsResponse) :
    adapterEntries (l.map (giteaFetchEvent namespace_ repo branch)) = [] := by
  induction l with
  | nil => rfl
  | cons c rest ih =>
    rw [List.map_cons, ← List.singleton_append, adapterEntries_append, ih]
    simp [adapterEntries, giteaFetchEvent]

theorem adapterEntries_githubFetch (namespace_ repo branch : String) (l : List RepositoryContent) :
    adapterEntries (l.map (githubFetchEvent namespace_ repo branch)) = [] := by
  induction l with
  | nil => rfl
  | cons c rest ih =>
    rw [List.map_cons, ← List.singleton_append, adapterEntries_append, ih]
    simp [adapterEntries, githubFetchEvent]

theorem adapterEntries_gitlabFetch (projectID branch : String) (l : List TreeNode) :
    adapterEntries (l.map (gitlabFetchEvent projectID branch)) = [] := by
  induction l with
  | nil => rfl
  | cons c rest ih =>
    rw [List.map_cons, ← List.singleton_append, adapterEntries_append, ih]
    simp [adapterEntries, gitlabFetchEvent]

theorem gitea_listing_failed (w : World) (cfg : Settings) (namespace_ repo branch path : String)
    (client : GiteaClient) (err : Error)
    (hc : w.giteaNewClient cfg.GiteaURL cfg.GiteaToken = .ok client)
    (hl : client.ListContents namespace_ repo branch path = .error err) :
    fetchFilesFromGitea w cfg namespace_ repo branch path =
      (.error err, [⟨"fetchFilesFromGitea", [namespace_, repo, branch, path]⟩,
        ⟨"gitea.NewClient", [cfg.GiteaURL, cfg.GiteaToken]⟩,
        ⟨"gitea.ListContents", [namespace_, repo, branch, path]⟩]) := by
  simp [fetchFilesFromGitea, hc, hl]

theorem gitea_listing_ok (w : World) (cfg : Settings) (namespace_ repo branch path : String)
    (client : GiteaClient) (contentsList : List ContentsResponse)
    (hc : w.giteaNewClient cfg.GiteaURL cfg.GiteaToken = .ok client)
    (hl : client.ListContents namespace_ repo branch path = .ok contentsList) :
    fetchFilesFromGitea w cfg namespace_ repo branch path =
      (.ok (recordsOf "file" (fun c => c.Name) (fun c => c.Path) (fun c => c.Type_)
          (giteaContent client namespace_ repo branch) contentsList),
       [⟨"fetchFilesFromGitea", [namespace_, repo, branch, path]⟩,
        ⟨"gitea.NewClient", [cfg.GiteaURL, cfg.GiteaToken]⟩,
        ⟨"gitea.ListContents", [namespace_, repo, branch, path]⟩] ++
        (contentsList.filter (fun c => isYamlFile "file" c.Type_ c.Name)).map
          (giteaFetchEvent namespace_ repo branch)) := by
  simp [fetchFilesFromGitea, hc, hl, giteaLoop_eq]

theorem github_listing_failed (w : World) (cfg : Settings) (namespace_ repo branch path : String)
    (client : GithubClient) (err : Error)
    (hc : githubClient w cfg = .ok client)
    (hl : client.GetContents namespace_ repo path branch = .error err) :
    fetchFilesFromGitHub w cfg namespace_ repo branch path =
      (.error err, [⟨"fetchFilesFromGitHub", [namespace_, repo, branch, path]⟩,
        ⟨"github.GetContents", [namespace_, repo, path, branch]⟩]) := by
  unfold fetchFilesFromGitHub
  simp only [hc, hl]
  rfl

theorem github_listing_done (w : World) (cfg : Settings) (namespace_ repo branch path : String)
    (client : GithubClient) (got : GetContentsResult)
    (hc : githubClient w cfg = .ok client)
    (hl : client.GetContents namespace_ repo path branch = .ok got) :
    fetchFilesFromGitHub w cfg namespace_ repo branch path =
      (if (got.directoryContent.filter (fun c => isYamlFile "file" c.Type_ c.Name)).any
            (githubNoFile client namespace_ repo branch)
        then .panic nilDereference
        else .ok (recordsOf "file" (fun c => c.Name) (fun c => c.Path) (fun c => c.Type_)
          (githubContent client namespace_ repo branch) got.directoryContent),
       [⟨"fetchFilesFromGitHub", [namespace_, repo, branch, path]⟩,
        ⟨"github.GetContents", [namespace_, repo, path, branch]⟩] ++
        (uptoFirst (githubNoFile client namespace_ repo branch)
          (got.directoryContent.filter (fun c => isYamlFile "file" c.Type_ c.Name))).map
          (githubFetchEvent namespace_ repo branch)) := by
  unfold fetchFilesFromGitHub
  simp only [hc, hl, githubLoop_eq]
  simp

theorem gitlab_listing_failed (w : World) (cfg : Settings) (namespace_ repo branch path : String)
    (client : GitlabClient) (err : Error)
    (hc : w.gitlabNewClient cfg.Token cfg.ServerURL = .ok client)
    (hl : client.ListTree (namespace_ ++ "/" ++ repo) path branch = .error err) :
    fetchFilesFromGitLab w cfg namespace_ repo branch path =
      (.error err, [⟨"fetchFilesFromGitLab", [namespace_, repo, branch, path]⟩,
        ⟨"gitlab.ListTree", [namespace_ ++ "/" ++ repo, path, branch]⟩]) := by
  simp [fetchFilesFromGitLab, hc, hl]

theorem gitlab_listing_ok (w : World) (cfg : Settings) (namespace_ repo branch path : String)
    (client : GitlabClient) (trees : List TreeNode)
    (hc : w.gitlabNewClient cfg.Token cfg.ServerURL = .ok client)
    (hl : client.ListTree (namespace_ ++ "/" ++ repo) path branch = .ok trees) :
    fetchFilesFromGitLab w cfg namespace_ repo branch path =
      (.ok (recordsOf "blob" (fun c => c.Name) (fun c => c.Path) (fun c => c.Type_)
          (gitlabContent w client (namespace_ ++ "/" ++ repo) branch) trees),
       [⟨"fetchFilesFromGitLab", [namespace_, repo, branch, path]⟩,
        ⟨"gitlab.ListTree", [namespace_ ++ "/" ++ repo, path, branch]⟩] ++
        (trees.filter (fun c => isYamlFile "blob" c.Type_ c.Name)).map
          (gitlabFetchEvent (namespace_ ++ "/" ++ repo) branch)) := by
  simp [fetchFilesFromGitLab, hc, hl, gitlabLoop_eq]

theorem gitea_entries (w : World) (cfg : Settings) (namespace_ repo branch path : String) :
    adapterEntries (fetchFilesFromGitea w cfg namespace_ repo branch path).2 =
      [⟨"fetchFilesFromGitea", [namespace_, repo, branch, path]⟩] := by
  cases hc : w.giteaNewClient cfg.GiteaURL cfg.GiteaToken with
  | error err => simp [fetchFilesFromGitea, hc, adapterEntries]
  | ok client =>
    cases hl : client.ListContents namespace_ repo branch path with
    | error err =>
      rw [gitea_listing_failed w cfg namespace_ repo branch path client err hc hl]
      simp [adapterEntries]
    | ok contentsList =>
      rw [gitea_listing_ok w cfg namespace_ repo branch path client contentsList hc hl]
      simp only [adapterEntries_append, adapterEntries_giteaFetch]
      simp [adapterEntries]

theorem github_entries (w : World) (cfg : Settings) (namespace_ repo branch path : String) :
    adapterEntries (fetchFilesFromGitHub w cfg namespace_ repo branch path).2 =
      [⟨"fetchFilesFromGitHub", [namespace_, repo, branch, path]⟩] := by
  cases hc : githubClient w cfg with
  | error err => simp [fetchFilesFromGitHub, hc, adapterEntries]
  | ok client =>
    cases hl : client.GetContents namespace_ repo path branch with
    | error err =>
      rw [github_listing_failed w cfg namespace_ repo branch path client err hc hl]
      simp [adapterEntries]
    | ok got =>
      rw [github_listing_done w cfg namespace_ repo branch path client got hc hl]
      simp only [adapterEntries_append, adapterEntries_githubFetch]
      simp [adapterEntries]

theorem gitlab_entries (w : World) (cfg : Settings) (namespace_ repo branch path : String) :
    adapterEntries (fetchFilesFromGitLab w cfg namespace_ repo branch path).2 =
      [⟨"fetchFilesFromGitLab", [namespace_, repo, branch, path]⟩] := by
  cases hc : w.gitlabNewClient cfg.Token cfg.ServerURL with
  | error err => simp [fetchFilesFromGitLab, hc, adapterEntries]
  | ok client =>
    cases hl : client.ListTree (namespace_ ++ "/" ++ repo) path branch with
    | error err =>
      rw [gitlab_listing_failed w cfg namespace_ repo branch path client err hc hl]
      simp [adapterEntries]
    | ok trees =>
      rw [gitlab_listing_ok w cfg namespace_ repo branch path client trees hc hl]
      simp only [adapterEntries_append, adapterEntries_gitlabFetch]
      simp [adapterEntries]

/-- The dispatcher once the four templates have rendered. -/
theorem dispatch_rendered (w : World) (cfg : Settings) (req : ConfigRequest)
    (namespace_ repoName branch path : String)
    (h1 : renderTemplate w cfg.NamespaceTemplate ⟨req.Repo, req.Pipeline⟩ = .ok namespace_)
    (h2 : renderTemplate w cfg.RepoNameTemplate ⟨req.Repo, req.Pipeline⟩ = .ok repoName)
    (h3 : renderTemplate w cfg.BranchTemplate ⟨req.Repo, req.Pipeline⟩ = .ok branch)
    (h4 : renderTemplate w cfg.PathTemplate ⟨req.Repo, req.Pipeline⟩ = .ok path) :
    fetchFilesFromGitServer w cfg req =
      if ToLower w.unicodeMap cfg.ServerType = "gitea" then
        fetchFilesFromGitea w cfg namespace_ repoName branch path
      else if ToLower w.unicodeMap cfg.ServerType = "github" then
        fetchFilesFromGitHub w cfg namespace_ repoName branch path
      else if ToLower w.unicodeMap cfg.ServerType = "gitlab" then
        fetchFilesFromGitLab w cfg namespace_ repoName branch path
      else (.error (.msg ("unsupported server type: " ++ cfg.ServerType)), []) := by
  simp [fetchFilesFromGitServer, h1, h2, h3, h4]

theorem filterMap_length_add {α β : Type} (f : α → Option β) (m : List α) :
    (m.filterMap f).length + (m.filter (fun e => (f e).isNone)).length = m.length := by
  induction m with
  | nil => rfl
  | cons a rest ih =>
    cases hf : f a with
    | none => simp [List.filterMap_cons, hf, List.filter_cons]; omega
    | some b => simp [List.filterMap_cons, hf, List.filter_cons]; omega

theorem recordsOf_length {α : Type} (fileKind : String) (name path kind : α → String)
    (content : α → Option String) (entries : List α) :
    (recordsOf fileKind name path kind content entries).length +
      ((entries.filter (fun e => isYamlFile fileKind (kind e) (name e))).filter
        (fun e => (content e).isNone)).length =
      (entries.filter (fun e => isYamlFile fileKind (kind e) (name e))).length := by
  unfold recordsOf
  have h := filterMap_length_add
    (fun e => (content e).map (fun c => (⟨name e, path e, "file", c⟩ : GiteaFile)))
    (entries.filter (fun e => isYamlFile fileKind (kind e) (name e)))
  simpa using h

/-! ## Lemmas on the handler -/

theorem configLoop_eq (w : World) (files : List GiteaFile) (configs : List ConfigFile)
    (trace : List Event) :
    configLoop w files configs trace =
      (configs ++ documentsOf files,
       trace ++ files.map (fun file => ⟨"yaml.Unmarshal", [file.Content]⟩)) := by
  induction files generalizing configs trace with
  | nil => simp [configLoop, documentsOf]
  | cons file rest ih =>
    unfold configLoop
    simp [ih, documentsOf, stripName]

theorem handle_parse_failed (w : World) (cfg : Settings) (body : String) (err : Error)
    (hp : w.jsonUnmarshal body = .error err) :
    handleConfigRequest w cfg body =
      (⟨400, some "text/plain; charset=utf-8", .text (err.message ++ "\n")⟩, []) := by
  simp [handleConfigRequest, hp, StatusBadRequest]

theorem handle_fetch_failed (w : World) (cfg : Settings) (body : String) (parsed : ConfigRequest)
    (err : Error) (trace : List Event)
    (hp : w.jsonUnmarshal body = .ok parsed)
    (hf : fetchFilesFromGitServer w cfg (copyOwner parsed) = (.error err, trace)) :
    handleConfigRequest w cfg body = (⟨204, none, .empty⟩, trace) := by
  simp [handleConfigRequest, hp, hf, StatusNoContent]

theorem handle_fetch_ok (w : World) (cfg : Settings) (body : String) (parsed : ConfigRequest)
    (files : List GiteaFile) (trace : List Event)
    (hp : w.jsonUnmarshal body = .ok parsed)
    (hf : fetchFilesFromGitServer w cfg (copyOwner parsed) = (.ok files, trace)) :
    handleConfigRequest w cfg body =
      (⟨200, some "application/json; charset=utf-8", .json ⟨documentsOf files⟩⟩,
       trace ++ files.map (fun file => ⟨"yaml.Unmarshal", [file.Content]⟩)) := by
  simp [handleConfigRequest, hp, hf, StatusOK, configLoop_eq]

/-! ## The claims -/

/-- C1. In `fetchFilesFromGitServer`, once the four templates have rendered, the
adapter is chosen by the lower-cased `ServerType`: "gitea", "github" and
"gitlab" run exactly the Gitea, GitHub and GitLab adapter on the four resolved
coordinates (the only adapter entry of the run), and result, error and trace
are the adapter's own; any other string gives the error
`unsupported server type: <ServerType>` with no adapter entered.  The match
ignores ASCII case: an ASCII string is lowered letter by letter, so "GitHub"
and "GITLAB" select GitHub and GitLab. -/
theorem dispatch_by_server_type (w : World) (cfg : Settings) (req : ConfigRequest)
    (namespace_ repoName branch path : String)
    (h1 : renderTemplate w cfg.NamespaceTemplate ⟨req.Repo, req.Pipeline⟩ = .ok namespace_)
    (h2 : renderTemplate w cfg.RepoNameTemplate ⟨req.Repo, req.Pipeline⟩ = .ok repoName)
    (h3 : renderTemplate w cfg.BranchTemplate ⟨req.Repo, req.Pipeline⟩ = .ok branch)
    (h4 : renderTemplate w cfg.PathTemplate ⟨req.Repo, req.Pipeline⟩ = .ok path) :
    (ToLower w.unicodeMap cfg.ServerType = "gitea" →
      fetchFilesFromGitServer w cfg req = fetchFilesFromGitea w cfg namespace_ repoName branch path ∧
      adapterEntries (fetchFilesFromGitServer w cfg req).2 =
        [⟨"fetchFilesFromGitea", [namespace_, repoName, branch, path]⟩]) ∧
    (ToLower w.unicodeMap cfg.ServerType = "github" →
      fetchFilesFromGitServer w cfg req = fetchFilesFromGitHub w cfg namespace_ repoName branch path ∧
      adapterEntries (fetchFilesFromGitServer w cfg req).2 =
        [⟨"fetchFilesFromGitHub", [namespace_, repoName, branch, path]⟩]) ∧
    (ToLower w.unicodeMap cfg.ServerType = "gitlab" →
      fetchFilesFromGitServer w cfg req = fetchFilesFromGitLab w cfg namespace_ repoName branch path ∧
      adapterEntries (fetchFilesFromGitServer w cfg req).2 =
        [⟨"fetchFilesFromGitLab", [namespace_, repoName, branch, path]⟩]) ∧
    (ToLower w.unicodeMap cfg.ServerType ≠ "gitea" →
      ToLower w.unicodeMap cfg.ServerType ≠ "github" →
      ToLower w.unicodeMap cfg.ServerType ≠ "gitlab" →
      fetchFilesFromGitServer w cfg req =
        (.error (.msg ("unsupported server type: " ++ cfg.ServerType)), [])) ∧
    ((∀ c ∈ cfg.ServerType.data, c.toNat < 128) →
      ToLower w.unicodeMap cfg.ServerType = ⟨cfg.ServerType.data.map lowerByte⟩) ∧
    ToLower w.unicodeMap "GitHub" = "github" ∧ ToLower w.unicodeMap "GITLAB" = "gitlab" := by
  have hd := dispatch_rendered w cfg req namespace_ repoName branch path h1 h2 h3 h4
  refine ⟨?_, ?_, ?_, ?_, toLower_ascii w.unicodeMap cfg.ServerType, rfl, rfl⟩
  · intro h
    rw [hd, if_pos h]
    exact ⟨rfl, gitea_entries w cfg namespace_ repoName branch path⟩
  · intro h
    have hne : ToLower w.unicodeMap cfg.ServerType ≠ "gitea" := by rw [h]; decide
    rw [hd, if_neg hne, if_pos h]
    exact ⟨rfl, github_entries w cfg namespace_ repoName branch path⟩
  · intro h
    have hne : ToLower w.unicodeMap cfg.ServerType ≠ "gitea" := by rw [h]; decide
    have hne2 : ToLower w.unicodeMap cfg.ServerType ≠ "github" := by rw [h]; decide
    rw [hd, if_neg hne, if_neg hne2, if_pos h]
    exact ⟨rfl, gitlab_entries w cfg namespace_ repoName branch path⟩
  · intro n1 n2 n3
    rw [hd, if_neg n1, if_neg n2, if_neg n3]

/-- Witness of C1: the sample world with `ServerType` "GitHub" runs the GitHub
adapter on (admin, woodpeckerfiles, main, myapp/main). -/
theorem dispatch_by_server_type_witness :
    ToLower sampleWorld.unicodeMap "GitHub" = "github" ∧
    fetchFilesFromGitServer sampleWorld { sampleSettings with ServerType := "GitHub" } sampleRequest =
      fetchFilesFromGitHub sampleWorld { sampleSettings with ServerType := "GitHub" }
        "admin" "woodpeckerfiles" "main" "myapp/main" ∧
    adapterEntries
        (fetchFilesFromGitServer sampleWorld { sampleSettings with ServerType := "GitHub" } sampleRequest).2 =
      [⟨"fetchFilesFromGitHub", ["admin", "woodpeckerfiles", "main", "myapp/main"]⟩] :=
  ⟨by decide,
   (dispatch_by_server_type sampleWorld { sampleSettings with ServerType := "GitHub" } sampleRequest
      "admin" "woodpeckerfiles" "main" "myapp/main" (by rfl) (by rfl) (by rfl) (by rfl)).2.1
      (by decide)⟩

/-- C3 fails in the GitHub adapter.  The odd world lists build.yml, odd.yml and
deploy.yaml, and the per-file call of odd.yml answers without an error and
without a file object.  The adapter fetches build.yml and odd.yml and then
panics in `fileContent.GetContent()` (github_gitlab.go 69): it returns neither
success nor the records of build.yml and deploy.yaml, deploy.yaml is never
fetched, and the handler ends without a response.  The Gitea and the GitLab
adapter return the two other records and no error when the middle one of
three YAML files cannot be fetched, and so for every listing: their result is
success with `recordsOf` the listing.  The GitHub adapter panics exactly
when a YAML file entry has such an answer, and returns success with
`recordsOf` the listing otherwise. -/
theorem per_file_failure_panics_github :
    (∃ got, oddGithub.GetContents "admin" "woodpeckerfiles" "myapp/main/odd.yml" "main" = .ok got ∧
      got.fileContent = none) ∧
    fetchFilesFromGitHub oddWorld { sampleSettings with ServerType := "github" }
        "admin" "woodpeckerfiles" "main" "myapp/main" =
      (.panic nilDereference,
       [⟨"fetchFilesFromGitHub", ["admin", "woodpeckerfiles", "main", "myapp/main"]⟩,
        ⟨"github.GetContents", ["admin", "woodpeckerfiles", "myapp/main", "main"]⟩,
        ⟨"github.GetContents", ["admin", "woodpeckerfiles", "myapp/main/build.yml", "main"]⟩,
        ⟨"github.GetContents", ["admin", "woodpeckerfiles", "myapp/main/odd.yml", "main"]⟩]) ∧
    (handleConfigRequest oddWorld { sampleSettings with ServerType := "github" } sampleBody).1 =
      ⟨0, none, .panic nilDereference⟩ ∧
    (flakyGitea.GetFile "admin" "woodpeckerfiles" "main" "myapp/main/test.yml").toOption = none ∧
    (fetchFilesFromGitea flakyWorld sampleSettings "admin" "woodpeckerfiles" "main" "myapp/main").1 =
      .ok [⟨"build.yml", "myapp/main/build.yml", "file", "steps: []"⟩,
           ⟨"deploy.yaml", "myapp/main/deploy.yaml", "file", "when: []"⟩] ∧
    (flakyGitlab.GetFile "admin/woodpeckerfiles" "myapp/main/test.yml" "main").toOption = none ∧
    (fetchFilesFromGitLab flakyGitlabWorld sampleSettings "admin" "woodpeckerfiles" "main"
        "myapp/main").1 =
      .ok [⟨"build.yml", "myapp/main/build.yml", "file", "steps: []"⟩,
           ⟨"deploy.yaml", "myapp/main/deploy.yaml", "file", "when: []"⟩] ∧
    (∀ (w : World) (cfg : Settings) (namespace_ repo branch path : String)
        (gitea : GiteaClient) (contentsList : List ContentsResponse),
      w.giteaNewClient cfg.GiteaURL cfg.GiteaToken = .ok gitea →
      gitea.ListContents namespace_ repo branch path = .ok contentsList →
      (fetchFilesFromGitea w cfg namespace_ repo branch path).1 =
        .ok (recordsOf "file" (fun c => c.Name) (fun c => c.Path) (fun c => c.Type_)
          (giteaContent gitea namespace_ repo branch) contentsList)) ∧
    (∀ (w : World) (cfg : Settings) (namespace_ repo branch path : String)
        (gitlab : GitlabClient) (trees : List TreeNode),
      w.gitlabNewClient cfg.Token cfg.ServerURL = .ok gitlab →
      gitlab.ListTree (namespace_ ++ "/" ++ repo) path branch = .ok trees →
      (fetchFilesFromGitLab w cfg namespace_ repo branch path).1 =
        .ok (recordsOf "blob" (fun c => c.Name) (fun c => c.Path) (fun c => c.Type_)
          (gitlabContent w gitlab (namespace_ ++ "/" ++ repo) branch) trees)) ∧
    (∀ (w : World) (cfg : Settings) (namespace_ repo branch path : String)
        (github : GithubClient) (got : GetContentsResult),
      githubClient w cfg = .ok github →
      github.GetContents namespace_ repo path branch = .ok got →
      (fetchFilesFromGitHub w cfg namespace_ repo branch path).1 =
        if (got.directoryContent.filter (fun c => isYamlFile "file" c.Type_ c.Name)).any
            (githubNoFile github namespace_ repo branch)
        then .panic nilDereference
        else .ok (recordsOf "file" (fun c => c.Name) (fun c => c.Path) (fun c => c.Type_)
          (githubContent github namespace_ repo branch) got.directoryContent)) ∧
    (∀ (α : Type) (fileKind : String) (name path kind : α → String)
        (content : α → Option String) (entries : List α),
      recordsOf fileKind name path kind content entries =
          (entries.filter (fun e => isYamlFile fileKind (kind e) (name e))).filterMap
            (fun e => (content e).map (fun c => ⟨name e, path e, "file", c⟩)) ∧
      (recordsOf fileKind name path kind content entries).length +
          ((entries.filter (fun e => isYamlFile fileKind (kind e) (name e))).filter
            (fun e => (content e).isNone)).length =
        (entries.filter (fun e => isYamlFile fileKind (kind e) (name e))).length) := by
  refine ⟨⟨_, rfl, rfl⟩, by rfl, by rfl, by rfl, by rfl, by rfl, by rfl, ?_, ?_, ?_, ?_⟩
  · intro w cfg namespace_ repo branch path gitea contentsList hg hgl
    rw [gitea_listing_ok w cfg namespace_ repo branch path gitea contentsList hg hgl]
  · intro w cfg namespace_ repo branch path gitlab trees hl hll
    rw [gitlab_listing_ok w cfg namespace_ repo branch path gitlab trees hl hll]
  · intro w cfg namespace_ repo branch path github got hh hhl
    rw [github_listing_done w cfg namespace_ repo branch path github got hh hhl]
  · intro α fileKind name path kind content entries
    exact ⟨rfl, recordsOf_length fileKind name path kind content entries⟩

/-- C4. A failed directory listing is fatal for the fetch and quiet for the
caller.  For a request that parses and whose four templates render, whichever
adapter `ServerType` selects: when its client is made and its listing call
fails with `err`, the adapter returns `err` with no records, its trace ends
with the listing call (no per-file call is made), and `handleConfigRequest`
answers 204 No Content with no content type and an empty body. -/
theorem listing_failure_is_quiet (w : World) (cfg : Settings) (body : String)
    (parsed : ConfigRequest) (namespace_ repoName branch path : String)
    (hp : w.jsonUnmarshal body = .ok parsed)
    (h1 : renderTemplate w cfg.NamespaceTemplate
      ⟨(copyOwner parsed).Repo, (copyOwner parsed).Pipeline⟩ = .ok namespace_)
    (h2 : renderTemplate w cfg.RepoNameTemplate
      ⟨(copyOwner parsed).Repo, (copyOwner parsed).Pipeline⟩ = .ok repoName)
    (h3 : renderTemplate w cfg.BranchTemplate
      ⟨(copyOwner parsed).Repo, (copyOwner parsed).Pipeline⟩ = .ok branch)
    (h4 : renderTemplate w cfg.PathTemplate
      ⟨(copyOwner parsed).Repo, (copyOwner parsed).Pipeline⟩ = .ok path) :
    (∀ (client : GiteaClient) (err : Error),
      ToLower w.unicodeMap cfg.ServerType = "gitea" →
      w.giteaNewClient cfg.GiteaURL cfg.GiteaToken = .ok client →
      client.ListContents namespace_ repoName branch path = .error err →
      fetchFilesFromGitea w cfg namespace_ repoName branch path =
        (.error err, [⟨"fetchFilesFromGitea", [namespace_, repoName, branch, path]⟩,
          ⟨"gitea.NewClient", [cfg.GiteaURL, cfg.GiteaToken]⟩,
          ⟨"gitea.ListContents", [namespace_, repoName, branch, path]⟩]) ∧
      handleConfigRequest w cfg body =
        (⟨204, none, .empty⟩, [⟨"fetchFilesFromGitea", [namespace_, repoName, branch, path]⟩,
          ⟨"gitea.NewClient", [cfg.GiteaURL, cfg.GiteaToken]⟩,
          ⟨"gitea.ListContents", [namespace_, repoName, branch, path]⟩])) ∧
    (∀ (client : GithubClient) (err : Error),
      ToLower w.unicodeMap cfg.ServerType = "github" →
      githubClient w cfg = .ok client →
      client.GetContents namespace_ repoName path branch = .error err →
      fetchFilesFromGitHub w cfg namespace_ repoName branch path =
        (.error err, [⟨"fetchFilesFromGitHub", [namespace_, repoName, branch, path]⟩,
          ⟨"github.GetContents", [namespace_, repoName, path, branch]⟩]) ∧
      handleConfigRequest w cfg body =
        (⟨204, none, .empty⟩, [⟨"fetchFilesFromGitHub", [namespace_, repoName, branch, path]⟩,
          ⟨"github.GetContents", [namespace_, repoName, path, branch]⟩])) ∧
    (∀ (client : GitlabClient) (err : Error),
      ToLower w.unicodeMap cfg.ServerType = "gitlab" →
      w.gitlabNewClient cfg.Token cfg.ServerURL = .ok client →
      client.ListTree (namespace_ ++ "/" ++ repoName) path branch = .error err →
      fetchFilesFromGitLab w cfg namespace_ repoName branch path =
        (.error err, [⟨"fetchFilesFromGitLab", [namespace_, repoName, branch, path]⟩,
          ⟨"gitlab.ListTree", [namespace_ ++ "/" ++ repoName, path, branch]⟩]) ∧
      handleConfigRequest w cfg body =
        (⟨204, none, .empty⟩, [⟨"fetchFilesFromGitLab", [namespace_, repoName, branch, path]⟩,
          ⟨"gitlab.ListTree", [namespace_ ++ "/" ++ repoName, path, branch]⟩])) := by
  have hd := dispatch_rendered w cfg (copyOwner parsed) namespace_ repoName branch path h1 h2 h3 h4
  refine ⟨?_, ?_, ?_⟩
  · intro client err hs hc hl
    have ha := gitea_listing_failed w cfg namespace_ repoName branch path client err hc hl
    refine ⟨ha, handle_fetch_failed w cfg body parsed err _ hp ?_⟩
    rw [hd, if_pos hs, ha]
  · intro client err hs hc hl
    have ha := github_listing_failed w cfg namespace_ repoName branch path client err hc hl
    have hne : ToLower w.unicodeMap cfg.ServerType ≠ "gitea" := by rw [hs]; decide
    refine ⟨ha, handle_fetch_failed w cfg body parsed err _ hp ?_⟩
    rw [hd, if_neg hne, if_pos hs, ha]
  · intro client err hs hc hl
    have ha := gitlab_listing_failed w cfg namespace_ repoName branch path client err hc hl
    have hne : ToLower w.unicodeMap cfg.ServerType ≠ "gitea" := by rw [hs]; decide
    have hne2 : ToLower w.unicodeMap cfg.ServerType ≠ "github" := by rw [hs]; decide
    refine ⟨ha, handle_fetch_failed w cfg body parsed err _ hp ?_⟩
    rw [hd, if_neg hne, if_neg hne2, if_pos hs, ha]

/-- Witness of C4: the sample world asked for the directory `nope`, which the
sample Gitea does not have. -/
theorem listing_failure_is_quiet_witness :
    sampleGitea.ListContents "admin" "woodpeckerfiles" "main" "nope" = .error (.msg "404 Not Found") ∧
    handleConfigRequest sampleWorld { sampleSettings with PathTemplate := "nope" } sampleBody =
      (⟨204, none, .empty⟩, [⟨"fetchFilesFromGitea", ["admin", "woodpeckerfiles", "main", "nope"]⟩,
        ⟨"gitea.NewClient", ["https://git.local.lan", "secret"]⟩,
        ⟨"gitea.ListContents", ["admin", "woodpeckerfiles", "main", "nope"]⟩]) :=
  ⟨by rfl,
   ((listing_failure_is_quiet sampleWorld { sampleSettings with PathTemplate := "nope" } sampleBody
      sampleParsed "admin" "woodpeckerfiles" "main" "nope" (by rfl) (by rfl) (by rfl) (by rfl) (by rfl)).1
      sampleGitea (.msg "404 Not Found") (by decide) (by rfl) (by rfl)).2⟩

theorem gitlab_yaml_irrelevant (w : World) (y : String → Except Error Unit) (cfg : Settings)
    (namespace_ repo branch path : String) :
    fetchFilesFromGitLab { w with yamlUnmarshal := y } cfg namespace_ repo branch path =
      fetchFilesFromGitLab w cfg namespace_ repo branch path := by
  unfold fetchFilesFromGitLab
  simp only [gitlabLoop_eq]
  rfl

theorem fetch_yaml_irrelevant (w : World) (y : String → Except Error Unit) (cfg : Settings)
    (req : ConfigRequest) :
    fetchFilesFromGitServer { w with yamlUnmarshal := y } cfg req =
      fetchFilesFromGitServer w cfg req := by
  have hr : ∀ t d, renderTemplate { w with yamlUnmarshal := y } t d = renderTemplate w t d :=
    fun _ _ => rfl
  have hg : ∀ a b c d, fetchFilesFromGitea { w with yamlUnmarshal := y } cfg a b c d =
      fetchFilesFromGitea w cfg a b c d := fun _ _ _ _ => rfl
  have hh : ∀ a b c d, fetchFilesFromGitHub { w with yamlUnmarshal := y } cfg a b c d =
      fetchFilesFromGitHub w cfg a b c d := fun _ _ _ _ => rfl
  unfold fetchFilesFromGitServer
  simp only [hr, hg, hh, gitlab_yaml_irrelevant]

/-- C5. The response assembler of `handleConfigRequest` is an order-preserving
map over the file records: for a request that parses and a fetch that returns
`files`, the answer is 200 with the JSON document whose `Configs` has one
entry per record, in the same order, with `Name` =
`TrimSuffix(TrimSuffix(record.Name, ".yml"), ".yaml")` and `Data` =
`record.Content`; the YAML validation of the contents has no influence on the
response (any other validator gives the same response), and records that get
the same stripped name are all kept.  `[{build.yml, "steps: []"}]` gives
`[{build, "steps: []"}]`. -/
theorem response_is_map_of_records (w : World) (cfg : Settings) (body : String)
    (parsed : ConfigRequest) (files : List GiteaFile) (trace : List Event)
    (hp : w.jsonUnmarshal body = .ok parsed)
    (hf : fetchFilesFromGitServer w cfg (copyOwner parsed) = (.ok files, trace)) :
    (handleConfigRequest w cfg body).1 =
      ⟨200, some "application/json; charset=utf-8",
        .json ⟨files.map (fun file =>
          ⟨TrimSuffix (TrimSuffix file.Name ".yml") ".yaml", file.Content⟩)⟩⟩ ∧
    (∀ y : String → Except Error Unit,
      (handleConfigRequest { w with yamlUnmarshal := y } cfg body).1 =
        (handleConfigRequest w cfg body).1) ∧
    (∀ configs : List ConfigFile,
      (handleConfigRequest w cfg body).1.body = .json ⟨configs⟩ →
      configs.length = files.length ∧
      ∀ (i : Nat) (hi : i < files.length) (hc : i < configs.length),
        (configs.get ⟨i, hc⟩).Name =
            TrimSuffix (TrimSuffix (files.get ⟨i, hi⟩).Name ".yml") ".yaml" ∧
          (configs.get ⟨i, hc⟩).Data = (files.get ⟨i, hi⟩).Content) ∧
    (∀ path kind : String,
      documentsOf [⟨"build.yml", path, kind, "steps: []"⟩] = [⟨"build", "steps: []"⟩]) ∧
    (∀ p1 p2 k1 k2 c1 c2 : String,
      documentsOf [⟨"a.yml", p1, k1, c1⟩, ⟨"a.yaml", p2, k2, c2⟩] = [⟨"a", c1⟩, ⟨"a", c2⟩]) := by
  have hh := handle_fetch_ok w cfg body parsed files trace hp hf
  have hmap : (handleConfigRequest w cfg body).1 =
      ⟨200, some "application/json; charset=utf-8", .json ⟨documentsOf files⟩⟩ := by rw [hh]
  refine ⟨hmap, ?_, ?_, ?_, ?_⟩
  · intro y
    have hf2 : fetchFilesFromGitServer { w with yamlUnmarshal := y } cfg (copyOwner parsed) =
        (.ok files, trace) := by rw [fetch_yaml_irrelevant, hf]
    rw [handle_fetch_ok { w with yamlUnmarshal := y } cfg body parsed files trace hp hf2, hmap]
  · intro configs hb
    rw [hmap] at hb
    have hc : configs = documentsOf files := by
      simp only [Body.json.injEq, ConfigResponse.mk.injEq] at hb
      exact hb.symm
    subst hc
    refine ⟨by simp [documentsOf], ?_⟩
    intro i hi hc
    simp [documentsOf]
  · intro path kind
    have h : TrimSuffix (TrimSuffix "build.yml" ".yml") ".yaml" = "build" := by decide
    simp [documentsOf, h]
  · intro p1 p2 k1 k2 c1 c2
    have h1 : TrimSuffix (TrimSuffix "a.yml" ".yml") ".yaml" = "a" := by decide
    have h2 : TrimSuffix (TrimSuffix "a.yaml" ".yml") ".yaml" = "a" := by decide
    simp [documentsOf, h1, h2]

/-- Witness of C5: the sample request on the sample world. -/
theorem response_is_map_of_records_witness :
    (handleConfigRequest sampleWorld sampleSettings sampleBody).1 =
      ⟨200, some "application/json; charset=utf-8",
        .json ⟨[⟨"build", "steps: []"⟩, ⟨"deploy", "when: []"⟩]⟩⟩ :=
  (response_is_map_of_records sampleWorld sampleSettings sampleBody sampleParsed
    [⟨"build.yml", "myapp/main/build.yml", "file", "steps: []"⟩,
     ⟨"deploy.yaml", "myapp/main/deploy.yaml", "file", "when: []"⟩]
    (fetchFilesFromGitServer sampleWorld sampleSettings (copyOwner sampleParsed)).2
    (by rfl) (by rfl)).1.trans (by rfl)

theorem not_hasSuffix_yml_of_yaml (b : String) : HasSuffix (b ++ ".yaml") ".yml" = false := by
  rw [Bool.eq_false_iff]
  intro h
  rw [hasSuffix_iff, String.data_append] at h
  have h2 : ".yml".data <:+ ".yaml".data :=
    List.suffix_of_suffix_length_le h (List.suffix_append _ _) (by decide)
  revert h2
  decide

theorem stripName_yaml (b : String) : stripName (b ++ ".yaml") = b := by
  unfold stripName
  rw [trimSuffix_of_not _ _ (not_hasSuffix_yml_of_yaml b), trimSuffix_append]

theorem stripName_yml (b : String) (h : HasSuffix b ".yaml" = false) :
    stripName (b ++ ".yml") = b := by
  unfold stripName
  rw [trimSuffix_append, trimSuffix_of_not _ _ h]

theorem stripName_of_not (n : String) (h : ¬ EndsInYaml n) : stripName n = n := by
  have h1 : HasSuffix n ".yml" = false := by
    rw [Bool.eq_false_iff]
    intro hs
    obtain ⟨b, hb⟩ := (hasSuffix_iff_exists n ".yml").1 hs
    exact h ⟨b, Or.inl hb⟩
  have h2 : HasSuffix n ".yaml" = false := by
    rw [Bool.eq_false_iff]
    intro hs
    obtain ⟨b, hb⟩ := (hasSuffix_iff_exists n ".yaml").1 hs
    exact h ⟨b, Or.inr hb⟩
  unfold stripName
  rw [trimSuffix_of_not _ _ h1, trimSuffix_of_not _ _ h2]

theorem trimSuffix_length_le (s t : String) : (TrimSuffix s t).data.length ≤ s.data.length := by
  unfold TrimSuffix
  split
  · simp
  · exact Nat.le_refl _

theorem stripName_length_lt (n : String) (h : EndsInYaml n) :
    (stripName n).data.length < n.data.length := by
  obtain ⟨b, hb | hb⟩ := h
  · subst hb
    unfold stripName
    rw [trimSuffix_append]
    have := trimSuffix_length_le b ".yaml"
    have hl : (b ++ ".yml").data.length = b.data.length + 4 := by
      rw [String.data_append, List.length_append]; rfl
    omega
  · subst hb
    rw [stripName_yaml]
    have hl : (b ++ ".yaml").data.length = b.data.length + 5 := by
      rw [String.data_append, List.length_append]; rfl
    omega

/-- C6 as stated fails: the file `a.yaml.yml` is `b.yml` for the base name
`b = a.yaml`, and its document name is `a`, not `b`. -/
theorem strip_one_extension_counterexample :
    stripName ("a.yaml" ++ ".yml") = "a" ∧ stripName ("a.yaml" ++ ".yml") ≠ "a.yaml" := by
  decide

/-- C6, amended. For every base name `b` that does not itself end in `.yaml`
the document name of `b.yml` is `b`; for every base name `b` the document
name of `b.yaml` is `b`; a name that ends in neither `.yml` nor `.yaml` is its
own document name.  (`deploy.yml` and `deploy.yaml` both give `deploy`.) -/
theorem strip_one_extension :
    (∀ b : String, (¬ ∃ c : String, b = c ++ ".yaml") → stripName (b ++ ".yml") = b) ∧
    (∀ b : String, stripName (b ++ ".yaml") = b) ∧
    (∀ n : String, ¬ EndsInYaml n → stripName n = n) ∧
    stripName "deploy.yml" = "deploy" ∧ stripName "deploy.yaml" = "deploy" := by
  refine ⟨?_, stripName_yaml, stripName_of_not, by decide, by decide⟩
  intro b hb
  apply stripName_yml
  rw [Bool.eq_false_iff]
  intro hs
  exact hb ((hasSuffix_iff_exists b ".yaml").1 hs)

/-- Witness of amended C6: the base name `build`, and the name `notes.txt`. -/
theorem strip_one_extension_witness :
    stripName ("build" ++ ".yml") = "build" ∧ stripName "notes.txt" = "notes.txt" :=
  ⟨strip_one_extension.1 "build" (by
      rintro ⟨c, hc⟩
      have h : HasSuffix "build" ".yaml" = true := (hasSuffix_iff_exists _ _).2 ⟨c, hc⟩
      revert h
      decide),
   strip_one_extension.2.2.1 "notes.txt" (by
      intro h
      have h2 := (isYamlFile_iff "file" "file" "notes.txt").2 ⟨rfl, h⟩
      revert h2
      decide)⟩

/-- C7 as stated fails: stripping `a.yml.yaml` gives `a.yml`, and stripping
that again gives `a`. -/
theorem strip_idempotent_counterexample :
    stripName "a.yml.yaml" = "a.yml" ∧ stripName (stripName "a.yml.yaml") = "a" ∧
    stripName (stripName "a.yml.yaml") ≠ stripName "a.yml.yaml" := by
  decide

/-- C7, amended. Applying the name-stripping step to its own result changes
nothing exactly when that result no longer ends in `.yml` or `.yaml`; this is
so for every name `b.yml` or `b.yaml` whose base `b` ends in neither. -/
theorem strip_idempotent_iff :
    (∀ n : String, stripName (stripName n) = stripName n ↔ ¬ EndsInYaml (stripName n)) ∧
    (∀ b : String, ¬ EndsInYaml b →
      stripName (stripName (b ++ ".yml")) = stripName (b ++ ".yml") ∧
      stripName (stripName (b ++ ".yaml")) = stripName (b ++ ".yaml")) := by
  constructor
  · intro n
    constructor
    · intro h hy
      have hlt := stripName_length_lt (stripName n) hy
      rw [h] at hlt
      exact Nat.lt_irrefl _ hlt
    · exact stripName_of_not (stripName n)
  · intro b hb
    have hb2 : HasSuffix b ".yaml" = false := by
      rw [Bool.eq_false_iff]
      intro hs
      obtain ⟨c, hc⟩ := (hasSuffix_iff_exists b ".yaml").1 hs
      exact hb ⟨c, Or.inr hc⟩
    rw [stripName_yml b hb2, stripName_yaml, stripName_of_not b hb]
    exact ⟨rfl, rfl⟩

/-- Witness of amended C7: `build.yml`, whose base `build` has no extension. -/
theorem strip_idempotent_iff_witness :
    stripName (stripName ("build" ++ ".yml")) = stripName ("build" ++ ".yml") :=
  (strip_idempotent_iff.2 "build" (by
    intro h
    have h2 := (isYamlFile_iff "file" "file" "build").2 ⟨rfl, h⟩
    revert h2
    decide)).1

/-- C8. Template resolution is fail-fast.  The four templates are rendered in
the order namespace, repo name, branch, path; the first render that fails
with `e` makes `fetchFilesFromGitServer` return `e` wrapped with the name of
that render and an empty trace: no adapter is entered and no SDK call is
made, whatever `ServerType` is.  A run that enters an adapter has rendered
all four templates, and the adapter got the four rendered strings. -/
theorem render_fail_fast (w : World) (cfg : Settings) (req : ConfigRequest) :
    (∀ e : Error,
      renderTemplate w cfg.NamespaceTemplate ⟨req.Repo, req.Pipeline⟩ = .error e →
      fetchFilesFromGitServer w cfg req = (.error (.wrap "render namespace template" e), [])) ∧
    (∀ (namespace_ : String) (e : Error),
      renderTemplate w cfg.NamespaceTemplate ⟨req.Repo, req.Pipeline⟩ = .ok namespace_ →
      renderTemplate w cfg.RepoNameTemplate ⟨req.Repo, req.Pipeline⟩ = .error e →
      fetchFilesFromGitServer w cfg req = (.error (.wrap "render reponame template" e), [])) ∧
    (∀ (namespace_ repoName : String) (e : Error),
      renderTemplate w cfg.NamespaceTemplate ⟨req.Repo, req.Pipeline⟩ = .ok namespace_ →
      renderTemplate w cfg.RepoNameTemplate ⟨req.Repo, req.Pipeline⟩ = .ok repoName →
      renderTemplate w cfg.BranchTemplate ⟨req.Repo, req.Pipeline⟩ = .error e →
      fetchFilesFromGitServer w cfg req = (.error (.wrap "render branch template" e), [])) ∧
    (∀ (namespace_ repoName branch : String) (e : Error),
      renderTemplate w cfg.NamespaceTemplate ⟨req.Repo, req.Pipeline⟩ = .ok namespace_ →
      renderTemplate w cfg.RepoNameTemplate ⟨req.Repo, req.Pipeline⟩ = .ok repoName →
      renderTemplate w cfg.BranchTemplate ⟨req.Repo, req.Pipeline⟩ = .ok branch →
      renderTemplate w cfg.PathTemplate ⟨req.Repo, req.Pipeline⟩ = .error e →
      fetchFilesFromGitServer w cfg req = (.error (.wrap "render path template" e), [])) ∧
    (∀ entry : Event, entry ∈ adapterEntries (fetchFilesFromGitServer w cfg req).2 →
      ∃ namespace_ repoName branch path : String,
        renderTemplate w cfg.NamespaceTemplate ⟨req.Repo, req.Pipeline⟩ = .ok namespace_ ∧
        renderTemplate w cfg.RepoNameTemplate ⟨req.Repo, req.Pipeline⟩ = .ok repoName ∧
        renderTemplate w cfg.BranchTemplate ⟨req.Repo, req.Pipeline⟩ = .ok branch ∧
        renderTemplate w cfg.PathTemplate ⟨req.Repo, req.Pipeline⟩ = .ok path ∧
        entry.args = [namespace_, repoName, branch, path]) := by
  refine ⟨?_, ?_, ?_, ?_, ?_⟩
  · intro e h1
    simp [fetchFilesFromGitServer, h1]
  · intro namespace_ e h1 h2
    simp [fetchFilesFromGitServer, h1, h2]
  · intro namespace_ repoName e h1 h2 h3
    simp [fetchFilesFromGitServer, h1, h2, h3]
  · intro namespace_ repoName branch e h1 h2 h3 h4
    simp [fetchFilesFromGitServer, h1, h2, h3, h4]
  · intro entry hmem
    cases h1 : renderTemplate w cfg.NamespaceTemplate ⟨req.Repo, req.Pipeline⟩ with
    | error e => simp [fetchFilesFromGitServer, h1, adapterEntries] at hmem
    | ok namespace_ =>
      cases h2 : renderTemplate w cfg.RepoNameTemplate ⟨req.Repo, req.Pipeline⟩ with
      | error e => simp [fetchFilesFromGitServer, h1, h2, adapterEntries] at hmem
      | ok repoName =>
        cases h3 : renderTemplate w cfg.BranchTemplate ⟨req.Repo, req.Pipeline⟩ with
        | error e => simp [fetchFilesFromGitServer, h1, h2, h3, adapterEntries] at hmem
        | ok branch =>
          cases h4 : renderTemplate w cfg.PathTemplate ⟨req.Repo, req.Pipeline⟩ with
          | error e => simp [fetchFilesFromGitServer, h1, h2, h3, h4, adapterEntries] at hmem
          | ok path =>
            refine ⟨namespace_, repoName, branch, path, rfl, rfl, rfl, rfl, ?_⟩
            rw [dispatch_rendered w cfg req namespace_ repoName branch path h1 h2 h3 h4] at hmem
            split at hmem
            · rw [gitea_entries] at hmem
              rw [List.mem_singleton.1 hmem]
            · split at hmem
              · rw [github_entries] at hmem
                rw [List.mem_singleton.1 hmem]
              · split at hmem
                · rw [gitlab_entries] at hmem
                  rw [List.mem_singleton.1 hmem]
                · simp [adapterEntries] at hmem

/-- Witness of C8: the branch template is an unclosed action; the run stops
there although `ServerType` names GitHub. -/
theorem render_fail_fast_witness :
    fetchFilesFromGitServer sampleWorld
        { sampleSettings with ServerType := "github", BranchTemplate := "\x7b\x7b" } sampleRequest =
      (.error (.wrap "render branch template" (.wrap "parse template error"
        (.msg "template: config:1: unclosed action"))), []) :=
  (render_fail_fast sampleWorld
      { sampleSettings with ServerType := "github", BranchTemplate := "\x7b\x7b" } sampleRequest).2.2.1
    "admin" "woodpeckerfiles" (.wrap "parse template error" (.msg "template: config:1: unclosed action"))
    (by rfl) (by rfl) (by rfl)

theorem fetch_of_render_failed (w : World) (cfg : Settings) (req : ConfigRequest)
    (h : (∃ e, renderTemplate w cfg.NamespaceTemplate ⟨req.Repo, req.Pipeline⟩ = .error e) ∨
      (∃ e, renderTemplate w cfg.RepoNameTemplate ⟨req.Repo, req.Pipeline⟩ = .error e) ∨
      (∃ e, renderTemplate w cfg.BranchTemplate ⟨req.Repo, req.Pipeline⟩ = .error e) ∨
      (∃ e, renderTemplate w cfg.PathTemplate ⟨req.Repo, req.Pipeline⟩ = .error e)) :
    ∃ err, fetchFilesFromGitServer w cfg req = (.error err, []) := by
  cases h1 : renderTemplate w cfg.NamespaceTemplate ⟨req.Repo, req.Pipeline⟩ with
  | error e => exact ⟨.wrap "render namespace template" e, by simp [fetchFilesFromGitServer, h1]⟩
  | ok namespace_ =>
    cases h2 : renderTemplate w cfg.RepoNameTemplate ⟨req.Repo, req.Pipeline⟩ with
    | error e => exact ⟨.wrap "render reponame template" e, by simp [fetchFilesFromGitServer, h1, h2]⟩
    | ok repoName =>
      cases h3 : renderTemplate w cfg.BranchTemplate ⟨req.Repo, req.Pipeline⟩ with
      | error e =>
        exact ⟨.wrap "render branch template" e, by simp [fetchFilesFromGitServer, h1, h2, h3]⟩
      | ok branch =>
        cases h4 : renderTemplate w cfg.PathTemplate ⟨req.Repo, req.Pipeline⟩ with
        | error e =>
          exact ⟨.wrap "render path template" e, by simp [fetchFilesFromGitServer, h1, h2, h3, h4]⟩
        | ok path =>
          rw [h1, h2, h3, h4] at h
          simp at h

/-- C9 as stated fails: with an unclosed action as path template the sample
request is answered 204 No Content, not 400, and the response is the one
given for the missing directory `nope`; an unsupported `ServerType` gets the
same response. -/
theorem template_failure_status_counterexample :
    (fetchFilesFromGitServer sampleWorld { sampleSettings with PathTemplate := "\x7b\x7b" }
        sampleRequest).1 =
      .error (.wrap "render path template" (.wrap "parse template error"
        (.msg "template: config:1: unclosed action"))) ∧
    (handleConfigRequest sampleWorld { sampleSettings with PathTemplate := "\x7b\x7b" }
        sampleBody).1 = ⟨204, none, .empty⟩ ∧
    (handleConfigRequest sampleWorld { sampleSettings with PathTemplate := "\x7b\x7b" }
        sampleBody).1.status ≠ 400 ∧
    (handleConfigRequest sampleWorld { sampleSettings with PathTemplate := "\x7b\x7b" }
        sampleBody).1 =
      (handleConfigRequest sampleWorld { sampleSettings with PathTemplate := "nope" } sampleBody).1 ∧
    (handleConfigRequest sampleWorld { sampleSettings with ServerType := "svn" } sampleBody).1 =
      (handleConfigRequest sampleWorld { sampleSettings with PathTemplate := "nope" } sampleBody).1 := by
  refine ⟨by rfl, by rfl, by decide, by rfl, by rfl⟩

/-- C9, amended. Every error of `fetchFilesFromGitServer` is answered alike:
for every request that parses, a template failure (any of the four renders)
and an unsupported `ServerType` make `handleConfigRequest` answer 204 No
Content with an empty body, without any adapter or SDK call, which is the
response given when the directory listing fails.  Status 400 is answered
exactly when the request body does not parse. -/
theorem fetch_errors_answered_no_content (w : World) (cfg : Settings) (body : String) :
    (∀ (parsed : ConfigRequest) (err : Error) (trace : List Event),
      w.jsonUnmarshal body = .ok parsed →
      fetchFilesFromGitServer w cfg (copyOwner parsed) = (.error err, trace) →
      handleConfigRequest w cfg body = (⟨204, none, .empty⟩, trace)) ∧
    (∀ parsed : ConfigRequest,
      w.jsonUnmarshal body = .ok parsed →
      ((∃ e, renderTemplate w cfg.NamespaceTemplate
          ⟨(copyOwner parsed).Repo, (copyOwner parsed).Pipeline⟩ = .error e) ∨
        (∃ e, renderTemplate w cfg.RepoNameTemplate
          ⟨(copyOwner parsed).Repo, (copyOwner parsed).Pipeline⟩ = .error e) ∨
        (∃ e, renderTemplate w cfg.BranchTemplate
          ⟨(copyOwner parsed).Repo, (copyOwner parsed).Pipeline⟩ = .error e) ∨
        (∃ e, renderTemplate w cfg.PathTemplate
          ⟨(copyOwner parsed).Repo, (copyOwner parsed).Pipeline⟩ = .error e)) →
      handleConfigRequest w cfg body = (⟨204, none, .empty⟩, [])) ∧
    (∀ (parsed : ConfigRequest) (namespace_ repoName branch path : String),
      w.jsonUnmarshal body = .ok parsed →
      renderTemplate w cfg.NamespaceTemplate
        ⟨(copyOwner parsed).Repo, (copyOwner parsed).Pipeline⟩ = .ok namespace_ →
      renderTemplate w cfg.RepoNameTemplate
        ⟨(copyOwner parsed).Repo, (copyOwner parsed).Pipeline⟩ = .ok repoName →
      renderTemplate w cfg.BranchTemplate
        ⟨(copyOwner parsed).Repo, (copyOwner parsed).Pipeline⟩ = .ok branch →
      renderTemplate w cfg.PathTemplate
        ⟨(copyOwner parsed).Repo, (copyOwner parsed).Pipeline⟩ = .ok path →
      ToLower w.unicodeMap cfg.ServerType ≠ "gitea" →
      ToLower w.unicodeMap cfg.ServerType ≠ "github" →
      ToLower w.unicodeMap cfg.ServerType ≠ "gitlab" →
      handleConfigRequest w cfg body = (⟨204, none, .empty⟩, [])) ∧
    ((handleConfigRequest w cfg body).1.status = 400 ↔ ∃ err, w.jsonUnmarshal body = .error err) := by
  refine ⟨?_, ?_, ?_, ?_⟩
  · intro parsed err trace hp hf
    exact handle_fetch_failed w cfg body parsed err trace hp hf
  · intro parsed hp hfail
    obtain ⟨err, hf⟩ := fetch_of_render_failed w cfg (copyOwner parsed) hfail
    exact handle_fetch_failed w cfg body parsed err [] hp hf
  · intro parsed namespace_ repoName branch path hp h1 h2 h3 h4 n1 n2 n3
    apply handle_fetch_failed w cfg body parsed _ [] hp
    rw [dispatch_rendered w cfg (copyOwner parsed) namespace_ repoName branch path h1 h2 h3 h4,
      if_neg n1, if_neg n2, if_neg n3]
  · cases hp : w.jsonUnmarshal body with
    | error err =>
      rw [handle_parse_failed w cfg body err hp]
      simp
    | ok parsed =>
      cases hf : fetchFilesFromGitServer w cfg (copyOwner parsed) with
      | mk result trace =>
        cases result with
        | error err =>
          rw [handle_fetch_failed w cfg body parsed err trace hp hf]
          simp
        | panic reason =>
          simp [handleConfigRequest, hp, hf, StatusBadRequest]
        | ok files =>
          rw [handle_fetch_ok w cfg body parsed files trace hp hf]
          simp

/-- Witness of amended C9: the sample request with an unclosed action as
namespace template. -/
theorem fetch_errors_answered_no_content_witness :
    handleConfigRequest sampleWorld { sampleSettings with NamespaceTemplate := "\x7b\x7b" }
      sampleBody = (⟨204, none, .empty⟩, []) :=
  (fetch_errors_answered_no_content sampleWorld
      { sampleSettings with NamespaceTemplate := "\x7b\x7b" } sampleBody).2.1
    sampleParsed (by rfl) (Or.inl ⟨_, by rfl⟩)

theorem recordsOf_eq_nil {α : Type} (fileKind : String) (name path kind : α → String)
    (content : α → Option String) (entries : List α)
    (h : ∀ e ∈ entries, isYamlFile fileKind (kind e) (name e) = true → content e = none) :
    recordsOf fileKind name path kind content entries = [] := by
  unfold recordsOf
  rw [List.filterMap_eq_nil_iff]
  intro e he
  rw [List.mem_filter] at he
  rw [h e he.1 he.2]
  rfl

/-- C10 as stated fails: the bare world lists a directory that exists and holds
only `notes.txt`; the sample request is answered 200 with a JSON document
whose configs list is nil, not with the 204 of a missing directory. -/
theorem no_matching_files_counterexample :
    (fetchFilesFromGitServer bareWorld sampleSettings sampleRequest).1 = .ok [] ∧
    (handleConfigRequest bareWorld sampleSettings sampleBody).1 =
      ⟨200, some "application/json; charset=utf-8", .json ⟨[]⟩⟩ ∧
    (handleConfigRequest bareWorld sampleSettings sampleBody).1 ≠
      (handleConfigRequest sampleWorld { sampleSettings with PathTemplate := "nope" } sampleBody).1 := by
  refine ⟨by rfl, by rfl, by decide⟩

/-- C10, amended. For every request that parses and whose fetch succeeds
without a record, `handleConfigRequest` answers 200 with content type
`application/json; charset=utf-8` and the JSON document whose configs list is
nil, which is not the 204 response of a failed listing.  A successful listing
yields no record when no entry is a YAML file with a fetched content: an empty
listing, no YAML file entry, or every fetch failed. -/
theorem no_matching_files_answered_ok (w : World) (cfg : Settings) (body : String)
    (parsed : ConfigRequest) (trace : List Event)
    (hp : w.jsonUnmarshal body = .ok parsed)
    (hf : fetchFilesFromGitServer w cfg (copyOwner parsed) = (.ok [], trace)) :
    handleConfigRequest w cfg body =
      (⟨200, some "application/json; charset=utf-8", .json ⟨[]⟩⟩, trace) ∧
    (handleConfigRequest w cfg body).1 ≠ ⟨204, none, .empty⟩ ∧
    (∀ (α : Type) (fileKind : String) (name path kind : α → String)
        (content : α → Option String) (entries : List α),
      (∀ e ∈ entries, isYamlFile fileKind (kind e) (name e) = true → content e = none) →
      recordsOf fileKind name path kind content entries = []) := by
  have hh := handle_fetch_ok w cfg body parsed [] trace hp hf
  have hh2 : handleConfigRequest w cfg body =
      (⟨200, some "application/json; charset=utf-8", .json ⟨[]⟩⟩, trace) := by
    rw [hh]
    simp [documentsOf]
  refine ⟨hh2, ?_, ?_⟩
  · rw [hh2]
    simp
  · intro α fileKind name path kind content entries h
    exact recordsOf_eq_nil fileKind name path kind content entries h

/-- Witness of amended C10: the sample request on the bare world. -/
theorem no_matching_files_answered_ok_witness :
    (handleConfigRequest bareWorld sampleSettings sampleBody).1 =
      ⟨200, some "application/json; charset=utf-8", .json ⟨[]⟩⟩ :=
  congrArg Prod.fst
    (no_matching_files_answered_ok bareWorld sampleSettings sampleBody sampleParsed
      (fetchFilesFromGitServer bareWorld sampleSettings (copyOwner sampleParsed)).2
      (by rfl) (by rfl)).1

/-- C14. `getEnvWithFallback` resolves a setting by strict precedence, an empty
value counting as unset: the result is the primary variable's value when that
is set and not empty, else the fallback variable's value when that is set and
not empty, else the default.  So each of the four templates takes the value
of its `WOODPECKER_CONFIG_*` name whenever that is set and not empty,
whatever the `DRONE_CONFIG_*` name holds, and with all eight names unset or
empty the templates are `{{ .Repo.Owner }}`, `woodpeckerfiles`,
`{{ .Pipeline.Branch }}` and `{{ .Repo.Name }}/{{ .Pipeline.Branch }}`. -/
theorem env_precedence (env : String → Option String) (primary fallback defaultValue : String) :
    (∀ key : String, Getenv env key = "" ↔ env key = none ∨ env key = some "") ∧
    (∀ v : String, env primary = some v → v ≠ "" →
      getEnvWithFallback env primary fallback defaultValue = v) ∧
    (∀ v : String, (env primary = none ∨ env primary = some "") → env fallback = some v → v ≠ "" →
      getEnvWithFallback env primary fallback defaultValue = v) ∧
    ((env primary = none ∨ env primary = some "") → (env fallback = none ∨ env fallback = some "") →
      getEnvWithFallback env primary fallback defaultValue = defaultValue) ∧
    (∀ v : String, v ≠ "" →
      (env "WOODPECKER_CONFIG_NAMESPACE_TEMP" = some v → (loadSettings env).NamespaceTemplate = v) ∧
      (env "WOODPECKER_CONFIG_REPONAME_TEMP" = some v → (loadSettings env).RepoNameTemplate = v) ∧
      (env "WOODPECKER_CONFIG_BRANCH_TEMP" = some v → (loadSettings env).BranchTemplate = v) ∧
      (env "WOODPECKER_CONFIG_YAMLPATH_TEMP" = some v → (loadSettings env).PathTemplate = v)) ∧
    ((∀ key ∈ ["WOODPECKER_CONFIG_NAMESPACE_TEMP", "DRONE_CONFIG_NAMESPACE_TEMP",
        "WOODPECKER_CONFIG_REPONAME_TEMP", "DRONE_CONFIG_REPONAME_TEMP",
        "WOODPECKER_CONFIG_BRANCH_TEMP", "DRONE_CONFIG_BRANCH_TEMP",
        "WOODPECKER_CONFIG_YAMLPATH_TEMP", "DRONE_CONFIG_YAMLPATH_TEMP"],
        env key = none ∨ env key = some "") →
      (loadSettings env).NamespaceTemplate = "\x7b\x7b .Repo.Owner \x7d\x7d" ∧
      (loadSettings env).RepoNameTemplate = "woodpeckerfiles" ∧
      (loadSettings env).BranchTemplate = "\x7b\x7b .Pipeline.Branch \x7d\x7d" ∧
      (loadSettings env).PathTemplate =
        "\x7b\x7b .Repo.Name \x7d\x7d/\x7b\x7b .Pipeline.Branch \x7d\x7d") := by
  have hempty : ∀ key : String, Getenv env key = "" ↔ env key = none ∨ env key = some "" := by
    intro key
    unfold Getenv
    cases env key with
    | none => simp
    | some v => simp
  have hset : ∀ (key v : String), env key = some v → Getenv env key = v := by
    intro key v h
    simp [Getenv, h]
  have hfirst : ∀ (p f d v : String), env p = some v → v ≠ "" →
      getEnvWithFallback env p f d = v := by
    intro p f d v h hv
    unfold getEnvWithFallback
    rw [hset p v h, if_pos hv]
  have hdefault : ∀ (p f d : String), (env p = none ∨ env p = some "") →
      (env f = none ∨ env f = some "") → getEnvWithFallback env p f d = d := by
    intro p f d hp hf
    unfold getEnvWithFallback
    rw [(hempty p).2 hp, (hempty f).2 hf]
    simp
  refine ⟨hempty, hfirst primary fallback defaultValue, ?_,
    hdefault primary fallback defaultValue, ?_, ?_⟩
  · intro v hp hf hv
    unfold getEnvWithFallback
    rw [(hempty primary).2 hp, hset fallback v hf]
    simp [hv]
  · intro v hv
    exact ⟨fun h => hfirst _ _ _ v h hv, fun h => hfirst _ _ _ v h hv,
      fun h => hfirst _ _ _ v h hv, fun h => hfirst _ _ _ v h hv⟩
  · intro h
    refine ⟨hdefault _ _ _ (h _ (by simp)) (h _ (by simp)),
      hdefault _ _ _ (h _ (by simp)) (h _ (by simp)),
      hdefault _ _ _ (h _ (by simp)) (h _ (by simp)),
      hdefault _ _ _ (h _ (by simp)) (h _ (by simp))⟩

/-- Witness of C14: in the sample environment the namespace template takes the
Woodpecker value although the Drone name is set too, the branch template
falls back to the Drone value, and the path template, whose Woodpecker name
is set to the empty string, takes the default. -/
theorem env_precedence_witness :
    (loadSettings sampleEnv).NamespaceTemplate = "acme" ∧
    getEnvWithFallback sampleEnv "WOODPECKER_CONFIG_BRANCH_TEMP" "DRONE_CONFIG_BRANCH_TEMP"
      "\x7b\x7b .Pipeline.Branch \x7d\x7d" = "ci" ∧
    getEnvWithFallback sampleEnv "WOODPECKER_CONFIG_YAMLPATH_TEMP" "DRONE_CONFIG_YAMLPATH_TEMP"
      "\x7b\x7b .Repo.Name \x7d\x7d/\x7b\x7b .Pipeline.Branch \x7d\x7d" =
      "\x7b\x7b .Repo.Name \x7d\x7d/\x7b\x7b .Pipeline.Branch \x7d\x7d" :=
  ⟨((env_precedence sampleEnv "" "" "").2.2.2.2.1 "acme" (by decide)).1 (by rfl),
   (env_precedence sampleEnv "WOODPECKER_CONFIG_BRANCH_TEMP" "DRONE_CONFIG_BRANCH_TEMP"
      "\x7b\x7b .Pipeline.Branch \x7d\x7d").2.2.1 "ci" (Or.inl (by rfl)) (by rfl) (by decide),
   (env_precedence sampleEnv "WOODPECKER_CONFIG_YAMLPATH_TEMP" "DRONE_CONFIG_YAMLPATH_TEMP"
      "\x7b\x7b .Repo.Name \x7d\x7d/\x7b\x7b .Pipeline.Branch \x7d\x7d").2.2.2.1
      (Or.inr (by rfl)) (Or.inl (by rfl))⟩

theorem stripName_removed (n : String) (h : EndsInYaml n) :
    ∃ removed : String, n = stripName n ++ removed ∧
      (removed = ".yml" ∨ removed = ".yaml" ∨ removed = ".yaml.yml") := by
  obtain ⟨b, hb | hb⟩ := h
  · subst hb
    cases hs : HasSuffix b ".yaml" with
    | false =>
      exact ⟨".yml", by rw [stripName_yml b hs], Or.inl rfl⟩
    | true =>
      obtain ⟨c, hc⟩ := (hasSuffix_iff_exists b ".yaml").1 hs
      subst hc
      refine ⟨".yaml.yml", ?_, Or.inr (Or.inr rfl)⟩
      unfold stripName
      rw [trimSuffix_append, trimSuffix_append, String.append_assoc]
      rfl
  · subst hb
    exact ⟨".yaml", by rw [stripName_yaml], Or.inr (Or.inl rfl)⟩

/-- C15. For every file name that ends in `.yml` or `.yaml` the document name
is the file name without a last part that is `.yml`, `.yaml` or `.yaml.yml`:
a proper prefix, shorter by exactly 4, 5 or 9 characters, and by 9 exactly
for the names ending in `.yaml.yml`.  The document name may be empty (`.yml`,
`.yaml`) and may itself end in a recognized extension (`a.yml.yaml` gives
`a.yml`). -/
theorem document_name_shortened :
    (∀ n : String, EndsInYaml n →
      (∃ removed : String, n = stripName n ++ removed ∧
        (removed = ".yml" ∨ removed = ".yaml" ∨ removed = ".yaml.yml")) ∧
      stripName n ≠ n ∧
      (n.length = (stripName n).length + 4 ∨ n.length = (stripName n).length + 5 ∨
        n.length = (stripName n).length + 9) ∧
      (n.length = (stripName n).length + 9 ↔ ∃ b : String, n = b ++ ".yaml.yml")) ∧
    stripName ".yml" = "" ∧ stripName ".yaml" = "" ∧
    stripName "a.yml.yaml" = "a.yml" ∧ EndsInYaml (stripName "a.yml.yaml") := by
  refine ⟨?_, by decide, by decide, by decide, ⟨"a", Or.inl (by decide)⟩⟩
  intro n h
  obtain ⟨removed, hn, hr⟩ := stripName_removed n h
  have hlen : n.length = (stripName n).length + removed.length := by
    conv_lhs => rw [hn]
    exact String.length_append _ _
  refine ⟨⟨removed, hn, hr⟩, ?_, ?_, ?_⟩
  · intro heq
    rw [heq] at hlen
    rcases hr with hr | hr | hr <;> subst hr <;> revert hlen <;>
      simp [show (".yml" : String).length = 4 from rfl, show (".yaml" : String).length = 5 from rfl,
        show (".yaml.yml" : String).length = 9 from rfl]
  · rcases hr with hr | hr | hr
    · subst hr; exact Or.inl hlen
    · subst hr; exact Or.inr (Or.inl hlen)
    · subst hr; exact Or.inr (Or.inr hlen)
  · constructor
    · intro h9
      rcases hr with hr | hr | hr
      · subst hr
        rw [h9] at hlen
        have h4 : (".yml" : String).length = 4 := rfl
        omega
      · subst hr
        rw [h9] at hlen
        have h5 : (".yaml" : String).length = 5 := rfl
        omega
      · subst hr
        exact ⟨stripName n, hn⟩
    · rintro ⟨b, hb⟩
      have hs : stripName n = b := by
        rw [hb]
        have : b ++ ".yaml.yml" = b ++ ".yaml" ++ ".yml" := by
          rw [String.append_assoc]; rfl
        rw [this]
        unfold stripName
        rw [trimSuffix_append, trimSuffix_append]
      rw [hs, hb, String.length_append]
      rfl

/-- Witness of C15: `deploy.yaml` loses five characters. -/
theorem document_name_shortened_witness :
    "deploy.yaml".length = (stripName "deploy.yaml").length + 5 ∧
    stripName "deploy.yaml" ≠ "deploy.yaml" :=
  ⟨by decide, (document_name_shortened.1 "deploy.yaml" ⟨"deploy", Or.inr (by decide)⟩).2.1⟩

/-! ## Lemmas on Base64 -/

theorem decode_encodeSextet : ∀ i, i < 64 → decodeSextet (encodeSextet i) = some i := by
  decide

theorem encodeSextet_plain : ∀ i, i < 64 →
    encodeSextet i ≠ '=' ∧ encodeSextet i ≠ '\r' ∧ encodeSextet i ≠ '\n' := by
  decide

theorem decodeChars_encodeBytes (bytes : List Nat) (h : ∀ b ∈ bytes, b < 256) :
    decodeChars (encodeBytes bytes) = .ok bytes := by
  induction bytes using encodeBytes.induct with
  | case1 a b c rest ih =>
    have ha : a < 256 := h a (by simp)
    have hb : b < 256 := h b (by simp)
    have hc : c < 256 := h c (by simp)
    have hrest : ∀ x ∈ rest, x < 256 := fun x hx => h x (by simp [hx])
    have h0 : a / 4 < 64 := by omega
    have h1 : a % 4 * 16 + b / 16 < 64 := by omega
    have h2 : b % 16 * 4 + c / 64 < 64 := by omega
    have h3 : c % 64 < 64 := by omega
    unfold encodeBytes decodeChars
    simp only [decode_encodeSextet _ h0, decode_encodeSextet _ h1, decode_encodeSextet _ h2,
      decode_encodeSextet _ h3, if_neg (encodeSextet_plain _ h2).1, if_neg (encodeSextet_plain _ h3).1,
      ih hrest]
    have e0 : a / 4 * 4 + (a % 4 * 16 + b / 16) / 16 = a := by omega
    have e1 : (a % 4 * 16 + b / 16) % 16 * 16 + (b % 16 * 4 + c / 64) / 4 = b := by omega
    have e2 : (b % 16 * 4 + c / 64) % 4 * 64 + c % 64 = c := by omega
    rw [e0, e1, e2]
  | case2 a b =>
    have ha : a < 256 := h a (by simp)
    have hb : b < 256 := h b (by simp)
    have h0 : a / 4 < 64 := by omega
    have h1 : a % 4 * 16 + b / 16 < 64 := by omega
    have h2 : b % 16 * 4 < 64 := by omega
    unfold encodeBytes decodeChars
    simp only [decode_encodeSextet _ h0, decode_encodeSextet _ h1, decode_encodeSextet _ h2,
      if_neg (encodeSextet_plain _ h2).1, if_true]
    have e0 : a / 4 * 4 + (a % 4 * 16 + b / 16) / 16 = a := by omega
    have e1 : (a % 4 * 16 + b / 16) % 16 * 16 + b % 16 * 4 / 4 = b := by omega
    rw [e0, e1]
  | case3 a =>
    have ha : a < 256 := h a (by simp)
    have h0 : a / 4 < 64 := by omega
    have h1 : a % 4 * 16 < 64 := by omega
    unfold encodeBytes decodeChars
    simp only [decode_encodeSextet _ h0, decode_encodeSextet _ h1, if_true, and_self]
    have e0 : a / 4 * 4 + a % 4 * 16 / 16 = a := by omega
    rw [e0]
  | case4 => rfl

theorem encodeBytes_plain (bytes : List Nat) (h : ∀ b ∈ bytes, b < 256) :
    ∀ c ∈ encodeBytes bytes, c ≠ '\r' ∧ c ≠ '\n' := by
  induction bytes using encodeBytes.induct with
  | case1 a b c rest ih =>
    have ha : a < 256 := h a (by simp)
    have hb : b < 256 := h b (by simp)
    have hc : c < 256 := h c (by simp)
    have hrest : ∀ x ∈ rest, x < 256 := fun x hx => h x (by simp [hx])
    have h0 : a / 4 < 64 := by omega
    have h1 : a % 4 * 16 + b / 16 < 64 := by omega
    have h2 : b % 16 * 4 + c / 64 < 64 := by omega
    have h3 : c % 64 < 64 := by omega
    intro x hx
    unfold encodeBytes at hx
    simp only [List.mem_cons] at hx
    rcases hx with hx | hx | hx | hx | hx
    · rw [hx]; exact (encodeSextet_plain _ h0).2
    · rw [hx]; exact (encodeSextet_plain _ h1).2
    · rw [hx]; exact (encodeSextet_plain _ h2).2
    · rw [hx]; exact (encodeSextet_plain _ h3).2
    · exact ih hrest x hx
  | case2 a b =>
    have ha : a < 256 := h a (by simp)
    have hb : b < 256 := h b (by simp)
    have h0 : a / 4 < 64 := by omega
    have h1 : a % 4 * 16 + b / 16 < 64 := by omega
    have h2 : b % 16 * 4 < 64 := by omega
    intro x hx
    unfold encodeBytes at hx
    simp only [List.mem_cons, List.mem_singleton, List.not_mem_nil, or_false] at hx
    rcases hx with hx | hx | hx | hx
    · rw [hx]; exact (encodeSextet_plain _ h0).2
    · rw [hx]; exact (encodeSextet_plain _ h1).2
    · rw [hx]; exact (encodeSextet_plain _ h2).2
    · rw [hx]; decide
  | case3 a =>
    have ha : a < 256 := h a (by simp)
    have h0 : a / 4 < 64 := by omega
    have h1 : a % 4 * 16 < 64 := by omega
    intro x hx
    unfold encodeBytes at hx
    simp only [List.mem_cons, List.mem_singleton, List.not_mem_nil, or_false, or_self] at hx
    rcases hx with hx | hx | hx
    · rw [hx]; exact (encodeSextet_plain _ h0).2
    · rw [hx]; exact (encodeSextet_plain _ h1).2
    · rw [hx]; decide
  | case4 =>
    intro x hx
    simp [encodeBytes] at hx

theorem stdDecode_stdEncode (b : String) (h : ∀ c ∈ b.data, c.toNat < 256) :
    StdDecodeString (StdEncodeToString b) = .ok b := by
  have hbytes : ∀ x ∈ b.data.map Char.toNat, x < 256 := by
    intro x hx
    obtain ⟨c, hc, rfl⟩ := List.mem_map.1 hx
    exact h c hc
  have hfilter : (encodeBytes (b.data.map Char.toNat)).filter
      (fun c => decide (c ≠ '\r' ∧ c ≠ '\n')) = encodeBytes (b.data.map Char.toNat) := by
    rw [List.filter_eq_self]
    intro c hc
    exact decide_eq_true (encodeBytes_plain _ hbytes c hc)
  unfold StdDecodeString StdEncodeToString
  simp only [hfilter, decodeChars_encodeBytes _ hbytes]
  congr 1
  apply String.ext
  simp [List.map_map, Function.comp_def]

theorem recordsOf_append {α : Type} (fileKind : String) (name path kind : α → String)
    (content : α → Option String) (before after : List α) :
    recordsOf fileKind name path kind content (before ++ after) =
      recordsOf fileKind name path kind content before ++
        recordsOf fileKind name path kind content after := by
  simp [recordsOf]

theorem recordsOf_cons_some {α : Type} (fileKind : String) (name path kind : α → String)
    (content : α → Option String) (e : α) (after : List α) (c : String)
    (hy : isYamlFile fileKind (kind e) (name e) = true) (hc : content e = some c) :
    recordsOf fileKind name path kind content (e :: after) =
      ⟨name e, path e, "file", c⟩ :: recordsOf fileKind name path kind content after := by
  simp [recordsOf, List.filter_cons, hy, hc]

theorem recordsOf_cons_none {α : Type} (fileKind : String) (name path kind : α → String)
    (content : α → Option String) (e : α) (after : List α) (hc : content e = none) :
    recordsOf fileKind name path kind content (e :: after) =
      recordsOf fileKind name path kind content after := by
  unfold recordsOf
  by_cases hy : isYamlFile fileKind (kind e) (name e) = true
  · simp [List.filter_cons, hy, hc]
  · simp [List.filter_cons, hy]

/-- C13. The GitLab adapter applies exactly one standard Base64 decode, the
Gitea adapter none.  With the standard decoder, for every byte string `b`: a
YAML entry of the listing whose file arrives as the standard Base64 encoding
of `b` gives the record with `Content` = `b` (decoding an encoding gives `b`
back); an entry whose file content is not valid Base64 gives no record, and
the entries before and after it give their records all the same.  A Gitea
entry gives the record whose `Content` is the bytes `GetFile` returned. -/
theorem gitlab_decodes_once (w : World) (cfg : Settings) (namespace_ repo branch path : String) :
    (∀ b : String, (∀ c ∈ b.data, c.toNat < 256) →
      StdDecodeString (StdEncodeToString b) = .ok b) ∧
    (∀ (gitlab : GitlabClient) (trees : List TreeNode),
      w.base64Decode = StdDecodeString →
      w.gitlabNewClient cfg.Token cfg.ServerURL = .ok gitlab →
      gitlab.ListTree (namespace_ ++ "/" ++ repo) path branch = .ok trees →
      (∀ (before after : List TreeNode) (tree : TreeNode) (b : String),
        trees = before ++ tree :: after →
        isYamlFile "blob" tree.Type_ tree.Name = true →
        (∀ c ∈ b.data, c.toNat < 256) →
        gitlab.GetFile (namespace_ ++ "/" ++ repo) tree.Path branch = .ok ⟨StdEncodeToString b⟩ →
        (fetchFilesFromGitLab w cfg namespace_ repo branch path).1 =
          .ok (recordsOf "blob" (fun c => c.Name) (fun c => c.Path) (fun c => c.Type_)
              (gitlabContent w gitlab (namespace_ ++ "/" ++ repo) branch) before ++
            ⟨tree.Name, tree.Path, "file", b⟩ ::
            recordsOf "blob" (fun c => c.Name) (fun c => c.Path) (fun c => c.Type_)
              (gitlabContent w gitlab (namespace_ ++ "/" ++ repo) branch) after)) ∧
      (∀ (before after : List TreeNode) (tree : TreeNode) (file : GitlabFile) (err : Error),
        trees = before ++ tree :: after →
        gitlab.GetFile (namespace_ ++ "/" ++ repo) tree.Path branch = .ok file →
        StdDecodeString file.Content = .error err →
        (fetchFilesFromGitLab w cfg namespace_ repo branch path).1 =
          .ok (recordsOf "blob" (fun c => c.Name) (fun c => c.Path) (fun c => c.Type_)
              (gitlabContent w gitlab (namespace_ ++ "/" ++ repo) branch) before ++
            recordsOf "blob" (fun c => c.Name) (fun c => c.Path) (fun c => c.Type_)
              (gitlabContent w gitlab (namespace_ ++ "/" ++ repo) branch) after))) ∧
    (∀ (gitea : GiteaClient) (contentsList : List ContentsResponse),
      w.giteaNewClient cfg.GiteaURL cfg.GiteaToken = .ok gitea →
      gitea.ListContents namespace_ repo branch path = .ok contentsList →
      ∀ (before after : List ContentsResponse) (content : ContentsResponse) (bytes : String),
        contentsList = before ++ content :: after →
        isYamlFile "file" content.Type_ content.Name = true →
        gitea.GetFile namespace_ repo branch content.Path = .ok bytes →
        (fetchFilesFromGitea w cfg namespace_ repo branch path).1 =
          .ok (recordsOf "file" (fun c => c.Name) (fun c => c.Path) (fun c => c.Type_)
              (giteaContent gitea namespace_ repo branch) before ++
            ⟨content.Name, content.Path, "file", bytes⟩ ::
            recordsOf "file" (fun c => c.Name) (fun c => c.Path) (fun c => c.Type_)
              (giteaContent gitea namespace_ repo branch) after)) := by
  refine ⟨stdDecode_stdEncode, ?_, ?_⟩
  · intro gitlab trees hw hl hll
    rw [gitlab_listing_ok w cfg namespace_ repo branch path gitlab trees hl hll]
    refine ⟨?_, ?_⟩
    · intro before after tree b ht hy hb hf
      have hc : gitlabContent w gitlab (namespace_ ++ "/" ++ repo) branch tree = some b := by
        simp [gitlabContent, hf, hw, stdDecode_stdEncode b hb]
      rw [ht, recordsOf_append, recordsOf_cons_some _ _ _ _ _ tree after b hy hc]
    · intro before after tree file err ht hf hd
      have hc : gitlabContent w gitlab (namespace_ ++ "/" ++ repo) branch tree = none := by
        simp [gitlabContent, hf, hw, hd]
      rw [ht, recordsOf_append, recordsOf_cons_none _ _ _ _ _ tree after hc]
  · intro gitea contentsList hg hgl before after content bytes ht hy hf
    rw [gitea_listing_ok w cfg namespace_ repo branch path gitea contentsList hg hgl]
    have hc : giteaContent gitea namespace_ repo branch content = some bytes := by
      simp [giteaContent, hf]
    rw [ht, recordsOf_append, recordsOf_cons_some _ _ _ _ _ content after bytes hy hc]

/-- Witness of C13: the sample GitLab sends `build.yml` as `c3RlcHM6IFtd`; with
the standard decoder the record holds `steps: []`.  The sample Gitea sends
`build.yml` as `steps: []`, and the record holds that. -/
theorem gitlab_decodes_once_witness :
    StdEncodeToString "steps: []" = "c3RlcHM6IFtd" ∧
    (fetchFilesFromGitLab base64World sampleSettings "admin" "woodpeckerfiles" "main"
        "myapp/main").1 =
      .ok [⟨"build.yml", "myapp/main/build.yml", "file", "steps: []"⟩,
           ⟨"deploy.yaml", "myapp/main/deploy.yaml", "file", "when: []"⟩] ∧
    (fetchFilesFromGitea base64World sampleSettings "admin" "woodpeckerfiles" "main"
        "myapp/main").1 =
      .ok [⟨"build.yml", "myapp/main/build.yml", "file", "steps: []"⟩,
           ⟨"deploy.yaml", "myapp/main/deploy.yaml", "file", "when: []"⟩] :=
  ⟨by rfl,
   ((((gitlab_decodes_once base64World sampleSettings "admin" "woodpeckerfiles" "main"
      "myapp/main").2.1
      sampleGitlab [⟨"build.yml", "myapp/main/build.yml", "blob"⟩,
        ⟨"notes.txt", "myapp/main/notes.txt", "blob"⟩, ⟨"deploy.yaml", "myapp/main/deploy.yaml", "blob"⟩]
      (by rfl) (by rfl) (by rfl)).1
      [] [⟨"notes.txt", "myapp/main/notes.txt", "blob"⟩, ⟨"deploy.yaml", "myapp/main/deploy.yaml", "blob"⟩]
      ⟨"build.yml", "myapp/main/build.yml", "blob"⟩ "steps: []"
      (by rfl) (by rfl) (by decide) (by rfl)).trans (by rfl)),
   (((gitlab_decodes_once base64World sampleSettings "admin" "woodpeckerfiles" "main"
      "myapp/main").2.2 sampleGitea sampleContents (by rfl) (by rfl)
      [] [⟨"notes.txt", "myapp/main/notes.txt", "file"⟩, ⟨"deploy.yaml", "myapp/main/deploy.yaml", "file"⟩]
      ⟨"build.yml", "myapp/main/build.yml", "file"⟩ "steps: []"
      (by rfl) (by rfl) (by rfl)).trans (by rfl))⟩

/-! ## Lemmas on the template engine -/

theorem splitAtLeftDelim_append (t after : List Char) (h1 : ¬ ['{', '{'] <:+: t)
    (h2 : ¬ ['{'] <:+ t) : splitAtLeftDelim (t ++ '{' :: '{' :: after) = some (t, after) := by
  induction t with
  | nil => simp [splitAtLeftDelim]
  | cons c t ih =>
    have h1' : ¬ ['{', '{'] <:+: t := fun h => h1 (h.trans (List.suffix_cons c t).isInfix)
    have h2' : ¬ ['{'] <:+ t := fun h => h2 (h.trans (List.suffix_cons c t))
    have hc : ¬ (c = '{' ∧ (t ++ '{' :: '{' :: after).head? = some '{') := by
      rintro ⟨rfl, hh⟩
      cases t with
      | nil => exact h2 (List.suffix_refl _)
      | cons d t =>
        simp only [List.cons_append, List.head?_cons, Option.some.injEq] at hh
        subst hh
        exact h1 ⟨[], t, rfl⟩
    rw [List.cons_append, splitAtLeftDelim, if_neg hc, ih h1' h2']

theorem splitAtLeftDelim_plain (t : List Char) (h1 : ¬ ['{', '{'] <:+: t) :
    splitAtLeftDelim t = none := by
  induction t with
  | nil => rfl
  | cons c t ih =>
    have h1' : ¬ ['{', '{'] <:+: t := fun h => h1 (h.trans (List.suffix_cons c t).isInfix)
    have hc : ¬ (c = '{' ∧ t.head? = some '{') := by
      rintro ⟨rfl, hh⟩
      cases t with
      | nil => simp at hh
      | cons d t =>
        simp only [List.head?_cons, Option.some.injEq] at hh
        subst hh
        exact h1 ⟨[], t, rfl⟩
    rw [splitAtLeftDelim, if_neg hc, ih h1']

theorem splitAtRightDelim_append (action after : List Char) (h : '}' ∉ action) :
    splitAtRightDelim (action ++ '}' :: '}' :: after) = some (action, after) := by
  induction action with
  | nil => simp [splitAtRightDelim]
  | cons c action ih =>
    have hc : ¬ (c = '}' ∧ (action ++ '}' :: '}' :: after).head? = some '}') := by
      rintro ⟨rfl, _⟩
      exact h (List.mem_cons_self _ _)
    have h' : '}' ∉ action := fun hm => h (List.mem_cons_of_mem _ hm)
    rw [List.cons_append, splitAtRightDelim, if_neg hc, ih h']

theorem splitAtLeftDelim_eq (l t after : List Char) (h : splitAtLeftDelim l = some (t, after)) :
    l = t ++ '{' :: '{' :: after := by
  induction l generalizing t with
  | nil => simp [splitAtLeftDelim] at h
  | cons c l ih =>
    rw [splitAtLeftDelim] at h
    split at h
    · rename_i hc
      obtain ⟨rfl, hh⟩ := hc
      cases l with
      | nil => simp at hh
      | cons d l =>
        simp only [List.head?_cons, Option.some.injEq] at hh
        subst hh
        simp only [List.tail_cons, Option.some.injEq, Prod.mk.injEq] at h
        obtain ⟨rfl, rfl⟩ := h
        rfl
    · cases hs : splitAtLeftDelim l with
      | none => simp [hs] at h
      | some p =>
        obtain ⟨t', a'⟩ := p
        simp only [hs, Option.some.injEq, Prod.mk.injEq] at h
        obtain ⟨rfl, rfl⟩ := h
        rw [ih t' hs]
        rfl

theorem splitAtRightDelim_eq (l a after : List Char) (h : splitAtRightDelim l = some (a, after)) :
    l = a ++ '}' :: '}' :: after := by
  induction l generalizing a with
  | nil => simp [splitAtRightDelim] at h
  | cons c l ih =>
    rw [splitAtRightDelim] at h
    split at h
    · rename_i hc
      obtain ⟨rfl, hh⟩ := hc
      cases l with
      | nil => simp at hh
      | cons d l =>
        simp only [List.head?_cons, Option.some.injEq] at hh
        subst hh
        simp only [List.tail_cons, Option.some.injEq, Prod.mk.injEq] at h
        obtain ⟨rfl, rfl⟩ := h
        rfl
    · cases hs : splitAtRightDelim l with
      | none => simp [hs] at h
      | some p =>
        obtain ⟨a', r'⟩ := p
        simp only [hs, Option.some.injEq, Prod.mk.injEq] at h
        obtain ⟨rfl, rfl⟩ := h
        rw [ih a' hs]
        rfl
theorem validIdent_all (name : List Char) (h : validIdent name = true) :
    ∀ c ∈ name, isAlphaNumeric c = true := by
  cases name with
  | nil => simp
  | cons c rest =>
    simp only [validIdent, Bool.and_eq_true, List.all_eq_true] at h
    intro x hx
    rcases List.mem_cons.1 hx with rfl | hx
    · exact h.1.1
    · exact h.2 x hx

theorem intercalate_cons_cons (sep a b : List Char) (l : List (List Char)) :
    sep.intercalate (a :: b :: l) = a ++ sep ++ sep.intercalate (b :: l) := by
  simp [List.intercalate]

theorem intercalate_chainChars (names : List (List Char))
    (h : ∀ name ∈ names, ∀ c ∈ name, isAlphaNumeric c = true) :
    ∀ c ∈ ['.'].intercalate names, isChainChar c = true := by
  induction names with
  | nil => simp [List.intercalate]
  | cons a rest ih =>
    cases rest with
    | nil =>
      intro c hc
      have hc' : c ∈ a := by simpa [List.intercalate] using hc
      simp [isChainChar, h a (by simp) c hc']
    | cons b rest =>
      intro c hc
      rw [intercalate_cons_cons] at hc
      rcases List.mem_append.1 hc with hc | hc
      · rcases List.mem_append.1 hc with hc | hc
        · simp [isChainChar, h a (by simp) c hc]
        · simp only [List.mem_singleton] at hc
          subst hc
          decide
      · exact ih (fun name hn => h name (List.mem_cons_of_mem _ hn)) c hc

theorem parseAction_chainSource (ident : List String) (hne : ident ≠ [])
    (hv : ∀ name ∈ ident, validIdent name.data = true) :
    parseAction (' ' :: (chainSource ident ++ [' '])) = some (.ok (.node (.field ident))) := by
  have hall : ∀ name ∈ ident.map String.data, ∀ c ∈ name, isAlphaNumeric c = true := by
    intro name hn
    obtain ⟨s, hs, rfl⟩ := List.mem_map.1 hn
    exact validIdent_all _ (hv s hs)
  have hchain := intercalate_chainChars _ hall
  have htake : (['.'].intercalate (ident.map String.data) ++ [' ']).takeWhile isChainChar =
      ['.'].intercalate (ident.map String.data) := by
    rw [List.takeWhile_append_of_pos hchain]
    simp [List.takeWhile, show isChainChar ' ' = false by decide]
  have hdrop : (['.'].intercalate (ident.map String.data) ++ [' ']).dropWhile isChainChar =
      [' '] := by
    rw [List.dropWhile_append_of_pos hchain]
    simp [List.dropWhile, show isChainChar ' ' = false by decide]
  have hsplit : (['.'].intercalate (ident.map String.data)).splitOn '.' =
      ident.map String.data := by
    apply List.splitOn_intercalate
    · intro l hl hdot
      have := hall l hl '.' hdot
      revert this
      decide
    · simpa using hne
  have hvalid : ((ident.map String.data).all validIdent) = true := by
    rw [List.all_eq_true]
    intro name hn
    obtain ⟨s, hs, rfl⟩ := List.mem_map.1 hn
    exact hv s hs
  unfold parseAction chainSource
  simp only [List.dropWhile, show isSpace ' ' = true by decide, show isSpace '.' = false by decide,
    List.cons_append, List.append_eq]
  rw [htake, hdrop, hsplit, if_pos ⟨by decide, hvalid⟩]
  simp [List.map_map, Function.comp_def]
theorem chainSource_no_brace (ident : List String)
    (hv : ∀ name ∈ ident, validIdent name.data = true) :
    '}' ∉ ' ' :: (chainSource ident ++ [' ']) := by
  have hall : ∀ name ∈ ident.map String.data, ∀ c ∈ name, isAlphaNumeric c = true := by
    intro name hn
    obtain ⟨s, hs, rfl⟩ := List.mem_map.1 hn
    exact validIdent_all _ (hv s hs)
  have hchain := intercalate_chainChars _ hall
  intro hmem
  simp only [chainSource, List.mem_cons, List.mem_append, List.mem_singleton,
    List.not_mem_nil, or_false] at hmem
  rcases hmem with h | (h | h) | h
  · revert h; decide
  · revert h; decide
  · have := hchain _ h
    revert this
    decide
  · revert h; decide

theorem templateSource_cons_data (first : String) (ident : List String) (literal : String)
    (rest : List (List String × String)) :
    (templateSource first ((ident, literal) :: rest)).data =
      first.data ++ '{' :: '{' :: ((' ' :: (chainSource ident ++ [' '])) ++
        '}' :: '}' :: (templateSource literal rest).data) := by
  simp [templateSource, actionSource]

theorem parse_templateSource (tail : List (List String × String)) :
    ∀ (first : String) (steps : Nat), tail.length < steps →
      LiteralsPlain first tail → NoBraceBeforeAction first tail →
      (∀ p ∈ tail, p.1 ≠ [] ∧ ∀ name ∈ p.1, validIdent name.data = true) →
      ∃ nodes, parseTokens steps (templateSource first tail).data =
          some (.ok (nodes.map Token.node)) ∧
        ∀ data, execNodes data nodes = expectedRender data first tail := by
  induction tail with
  | nil =>
    intro first steps hs hp _ _
    obtain ⟨s, rfl⟩ : ∃ s, steps = s + 1 := ⟨steps - 1, by omega⟩
    refine ⟨if first.data = [] then [] else [.text first], ?_, ?_⟩
    · simp only [templateSource, parseTokens, splitAtLeftDelim_plain first.data hp]
      by_cases he : first.data = [] <;> simp [he]
    · intro data
      by_cases he : first.data = []
      · have : first = "" := String.ext he
        simp [he, execNodes, expectedRender, this]
      · simp [he, execNodes, expectedRender]
  | cons p rest ih =>
    obtain ⟨ident, literal⟩ := p
    intro first steps hs hp hb hv
    obtain ⟨s, rfl⟩ : ∃ s, steps = s + 1 := ⟨steps - 1, by omega⟩
    have hs' : rest.length < s := by simpa using hs
    obtain ⟨hp1, hp2⟩ := hp
    obtain ⟨hb1, hb2⟩ := hb
    have hvi := hv (ident, literal) (by simp)
    have hvr : ∀ q ∈ rest, q.1 ≠ [] ∧ ∀ name ∈ q.1, validIdent name.data = true :=
      fun q hq => hv q (List.mem_cons_of_mem _ hq)
    obtain ⟨nodes, hn, he⟩ := ih literal s hs' hp2 hb2 hvr
    refine ⟨(if first.data = [] then [] else [.text first]) ++ .field ident :: nodes, ?_, ?_⟩
    · rw [templateSource_cons_data, parseTokens, splitAtLeftDelim_append _ _ hp1 hb1]
      simp only [splitAtRightDelim_append _ _ (chainSource_no_brace ident hvi.2),
        parseAction_chainSource ident hvi.1 hvi.2, hn]
      by_cases hf : first.data = [] <;> simp [hf]
    · intro data
      have hrest := he data
      by_cases hf : first.data = []
      · have : first = "" := String.ext hf
        subst this
        simp only [if_pos hf, List.nil_append, execNodes, expectedRender, hrest]
        cases evalChain (.data data) ident with
        | error err => rfl
        | ok v =>
          cases expectedRender data literal rest with
          | error err => rfl
          | ok out => simp
      · simp only [if_neg hf, List.singleton_append, execNodes, expectedRender, hrest]
        cases evalChain (.data data) ident with
        | error err => rfl
        | ok v =>
          cases expectedRender data literal rest with
          | error err => rfl
          | ok out => simp [String.append_assoc]

theorem templateSource_length (tail : List (List String × String)) (first : String) :
    tail.length < (templateSource first tail).data.length + 1 := by
  induction tail generalizing first with
  | nil => simp
  | cons p rest ih =>
    obtain ⟨ident, literal⟩ := p
    have := ih literal
    rw [templateSource_cons_data]
    simp only [List.length_cons, List.length_append]
    omega

theorem splitAtRightDelim_occurrence (y r : List Char) :
    ∃ p, splitAtRightDelim (y ++ '}' :: '}' :: r) = some p := by
  induction y with
  | nil => exact ⟨([], r), by simp [splitAtRightDelim]⟩
  | cons c y ih =>
    obtain ⟨p, hp⟩ := ih
    rw [List.cons_append, splitAtRightDelim]
    split
    · exact ⟨_, rfl⟩
    · rw [hp]
      exact ⟨_, rfl⟩

theorem hasUnclosed_elim (l : List Char) (h : hasUnclosed l = true) :
    ∃ pre post, l = pre ++ '{' :: '{' :: post ∧ splitAtRightDelim post = none := by
  induction l with
  | nil => simp [hasUnclosed] at h
  | cons c l ih =>
    rw [hasUnclosed, Bool.or_eq_true, Bool.and_eq_true, decide_eq_true_eq] at h
    rcases h with ⟨⟨rfl, hh⟩, hn⟩ | h
    · cases l with
      | nil => simp at hh
      | cons d l =>
        simp only [List.head?_cons, Option.some.injEq] at hh
        subst hh
        exact ⟨[], l, rfl, by simpa using hn⟩
    · obtain ⟨pre, post, rfl, hp⟩ := ih h
      exact ⟨c :: pre, post, rfl, hp⟩

theorem parse_unclosed (steps : Nat) :
    ∀ (input pre post : List Char), input = pre ++ '{' :: '{' :: post →
      splitAtRightDelim post = none →
      ∀ tokens, parseTokens steps input ≠ some (.ok tokens) := by
  induction steps with
  | zero =>
    intro input pre post _ _ tokens
    simp [parseTokens]
  | succ steps ih =>
    intro input pre post h hpost tokens
    rw [parseTokens]
    cases hl : splitAtLeftDelim input with
    | none =>
      exfalso
      have hplain : ∀ l : List Char, splitAtLeftDelim l = none →
          ∀ a b : List Char, l ≠ a ++ '{' :: '{' :: b := by
        intro l
        induction l with
        | nil => intro _ a b hab; cases a <;> simp at hab
        | cons c l ihl =>
          intro hn a b hab
          rw [splitAtLeftDelim] at hn
          split at hn
          · simp at hn
          · rename_i hc
            cases hs : splitAtLeftDelim l with
            | some p => simp [hs] at hn
            | none =>
              cases a with
              | nil =>
                simp only [List.nil_append, List.cons.injEq] at hab
                exact hc ⟨hab.1, by rw [hab.2]; rfl⟩
              | cons d a =>
                simp only [List.cons_append, List.cons.injEq] at hab
                exact ihl hs a b hab.2
      exact hplain input hl pre post h
    | some p =>
      obtain ⟨t, r⟩ := p
      simp only []
      cases hr : splitAtRightDelim r with
      | none => simp
      | some q =>
        obtain ⟨a, r2⟩ := q
        simp only []
        cases hpa : parseAction a with
        | none => simp
        | some res =>
          cases res with
          | error err => simp
          | ok token =>
            simp only []
            have hin : input = (t ++ '{' :: '{' :: a) ++ '}' :: '}' :: r2 := by
              rw [splitAtLeftDelim_eq input t r hl, splitAtRightDelim_eq r a r2 hr]
              simp
            have hocc : ∃ pre2, r2 = pre2 ++ '{' :: '{' :: post := by
              rw [hin] at h
              rcases List.append_eq_append_iff.1 h with ⟨x, _, hx⟩ | ⟨y, _, hy⟩
              · cases x with
                | nil => simp at hx
                | cons c x =>
                  cases x with
                  | nil => simp at hx
                  | cons d x =>
                    simp only [List.cons_append, List.cons.injEq] at hx
                    exact ⟨x, hx.2.2⟩
              · exfalso
                cases y with
                | nil => simp at hy
                | cons c y =>
                  cases y with
                  | nil => simp at hy
                  | cons d y =>
                    simp only [List.cons_append, List.cons.injEq] at hy
                    obtain ⟨q, hq⟩ := splitAtRightDelim_occurrence y r2
                    rw [hy.2.2, hq] at hpost
                    cases hpost
            obtain ⟨pre2, hpre2⟩ := hocc
            have hrec := ih r2 pre2 post hpre2 hpost
            cases hrest : parseTokens steps r2 with
            | none => simp
            | some res2 =>
              cases res2 with
              | error err => simp
              | ok tokens2 => exact absurd hrest (hrec tokens2)

theorem parseTokens_closed (steps : Nat) (input : List Char) (tokens : List Token)
    (h : parseTokens steps input = some (.ok tokens)) : hasUnclosed input = false := by
  cases hu : hasUnclosed input with
  | false => rfl
  | true =>
    obtain ⟨pre, post, hin, hp⟩ := hasUnclosed_elim input hu
    exact absurd h (parse_unclosed steps input pre post hin hp tokens)

theorem buildBlocks_nodes (nodes : List Node) :
    buildBlocks .top (nodes.map Token.node) = some (nodes.map Block.plain) := by
  induction nodes with
  | nil => rfl
  | cons n rest ih => simp [buildBlocks, ih]

theorem execBlocks_plain (data : TemplateData) (nodes : List Node) :
    execBlocks data (nodes.map Block.plain) = execNodes data nodes := by
  induction nodes with
  | nil => rfl
  | cons n rest ih =>
    cases n with
    | text literal =>
      simp only [List.map_cons, execBlocks, execNodes, ih]
      cases execNodes data rest <;> simp
    | field ident =>
      simp only [List.map_cons, execBlocks, execNodes, ih]
      cases evalChain (.data data) ident with
      | error err => rfl
      | ok v => cases execNodes data rest <;> simp

theorem parseTemplate_templateSource (first : String) (tail : List (List String × String))
    (hp : LiteralsPlain first tail) (hb : NoBraceBeforeAction first tail)
    (hv : ∀ p ∈ tail, p.1 ≠ [] ∧ ∀ name ∈ p.1, validIdent name.data = true) :
    ∃ nodes, parseTemplate (templateSource first tail) = some (.ok (nodes.map Block.plain)) ∧
      ∀ data, execNodes data nodes = expectedRender data first tail := by
  obtain ⟨nodes, hn, he⟩ := parse_templateSource tail first
    ((templateSource first tail).data.length + 1) (templateSource_length tail first) hp hb hv
  refine ⟨nodes, ?_, he⟩
  unfold parseTemplate
  rw [parseTokens_closed _ _ _ hn, hn]
  simp [buildBlocks_nodes]

theorem engine_ok (w : World) (hw : TemplateEngine w) (text : String) (data : TemplateData)
    (blocks : List Block) (out : String)
    (hp : parseTemplate text = some (.ok blocks)) (he : execBlocks data blocks = .ok out) :
    renderTemplate w text data = .ok out := by
  have h := hw text
  rw [hp] at h
  obtain ⟨tmpl, ht, hd⟩ := h
  have h2 := hd data
  rw [he] at h2
  simp [renderTemplate, ht, show tmpl data = .ok out from h2]

theorem engine_execute_failed (w : World) (hw : TemplateEngine w) (text : String)
    (data : TemplateData) (blocks : List Block) (e : Error)
    (hp : parseTemplate text = some (.ok blocks)) (he : execBlocks data blocks = .error e) :
    ∃ err, renderTemplate w text data = .error (.wrap "execute template error" err) := by
  have h := hw text
  rw [hp] at h
  obtain ⟨tmpl, ht, hd⟩ := h
  have h2 := hd data
  rw [he] at h2
  obtain ⟨err, herr⟩ : ∃ err, tmpl data = .error err := h2
  exact ⟨err, by simp [renderTemplate, ht, herr]⟩

theorem templateEngine_templateWorld : TemplateEngine templateWorld := by
  intro text
  show match parseTemplate text with
    | none => True
    | some (.error _) => ∃ err, textTemplateParse text = .error err
    | some (.ok blocks) =>
      ∃ tmpl, textTemplateParse text = .ok tmpl ∧
        ∀ data : TemplateData,
          match execBlocks data blocks with
          | .ok out => tmpl data = .ok out
          | .error _ => ∃ err, tmpl data = .error err
  unfold textTemplateParse
  cases parseTemplate text with
  | none => trivial
  | some res =>
    cases res with
    | error e => exact ⟨e, rfl⟩
    | ok blocks =>
      refine ⟨_, rfl, fun data => ?_⟩
      cases execBlocks data blocks with
      | error e => exact ⟨e, rfl⟩
      | ok out => rfl

theorem evalChain_stringField (data : TemplateData) (ident : List String)
    (h : ident ∈ stringFields) :
    evalChain (.data data) ident = .ok (.str (stringFieldValue data ident)) := by
  simp only [stringFields, List.mem_cons, List.mem_singleton, List.not_mem_nil, or_false] at h
  rcases h with rfl | rfl | rfl | rfl | rfl | rfl | rfl | rfl | rfl <;> rfl

theorem stringField_valid (ident : List String) (h : ident ∈ stringFields) :
    ident ≠ [] ∧ ∀ name ∈ ident, validIdent name.data = true := by
  simp only [stringFields, List.mem_cons, List.mem_singleton, List.not_mem_nil, or_false] at h
  rcases h with rfl | rfl | rfl | rfl | rfl | rfl | rfl | rfl | rfl <;> decide

theorem render_templateSource (w : World) (hw : TemplateEngine w)
    (data : TemplateData) (first : String) (tail : List (List String × String))
    (hp : LiteralsPlain first tail) (hb : NoBraceBeforeAction first tail)
    (hv : ∀ p ∈ tail, p.1 ≠ [] ∧ ∀ name ∈ p.1, validIdent name.data = true) :
    (∀ result, expectedRender data first tail = .ok result →
      renderTemplate w (templateSource first tail) data = .ok result) ∧
    (∀ e, expectedRender data first tail = .error e →
      ∃ err, renderTemplate w (templateSource first tail) data =
        .error (.wrap "execute template error" err)) := by
  obtain ⟨nodes, hn, he⟩ := parseTemplate_templateSource first tail hp hb hv
  refine ⟨?_, ?_⟩
  · intro result hr
    exact engine_ok w hw _ data _ result hn (by rw [execBlocks_plain, he data, hr])
  · intro e hr
    exact engine_execute_failed w hw _ data _ e hn (by rw [execBlocks_plain, he data, hr])

theorem expectedRender_stringFields (data : TemplateData) (tail : List (List String × String)) :
    ∀ first : String, (∀ p ∈ tail, p.1 ∈ stringFields) →
      expectedRender data first tail = .ok (concatenated data first tail) := by
  induction tail with
  | nil => intro first _; rfl
  | cons p rest ih =>
    obtain ⟨ident, literal⟩ := p
    intro first h
    have hi := evalChain_stringField data ident (h (ident, literal) (by simp))
    have hr := ih literal (fun q hq => h q (List.mem_cons_of_mem _ hq))
    simp only [expectedRender, hi, hr, concatenated, Value.print, String.append_assoc]

/-- C11 as stated fails: the literal `a{` contains no `{{`, and followed by the
action `{{ .Repo.Name }}` it makes the template `a{{{ .Repo.Name }}`, whose
first `{{` starts inside the literal; the action then starts with `{` and the
template does not parse. -/
theorem render_concatenates_counterexample :
    LiteralsPlain "a\x7b" [(["Repo", "Name"], "")] ∧
    (∀ p ∈ [((["Repo", "Name"] : List String), "")], p.1 ∈ stringFields) ∧
    templateSource "a\x7b" [(["Repo", "Name"], "")] = "a\x7b\x7b\x7b .Repo.Name \x7d\x7d" ∧
    renderTemplate templateWorld "a\x7b\x7b\x7b .Repo.Name \x7d\x7d"
        ⟨sampleRequest.Repo, sampleRequest.Pipeline⟩ =
      .error (.wrap "parse template error"
        (.msg "template: config:1: unexpected \"\x7b\" in command")) := by
  refine ⟨?_, ?_, by rfl, by rfl⟩
  · show ¬ _ ∧ ¬ _
    decide
  · intro p hp
    rw [List.mem_singleton.1 hp]
    decide

/-- C11, amended. With the text/template engine, for every template that is a
sequence of literal text pieces, none containing `{{` and none that stands
directly before an action ending in `{`, and actions of the form
`{{ .Repo.F }}` or `{{ .Pipeline.G }}` naming string fields, and every
TemplateData, `renderTemplate` succeeds and returns the literals and the
values of the named fields concatenated in order; a template without `{{`
renders to itself.  With Repo{Name: myapp, Owner: admin} and
Pipeline{Branch: main} the templates `{{ .Repo.Owner }}`, `dronefiles`,
`{{ .Pipeline.Branch }}` and `{{ .Repo.Name }}/{{ .Pipeline.Branch }}` give
admin, dronefiles, main and myapp/main. -/
theorem render_concatenates (w : World) (hw : TemplateEngine w)
    (data : TemplateData) (first : String) (tail : List (List String × String))
    (hp : LiteralsPlain first tail) (hb : NoBraceBeforeAction first tail)
    (hf : ∀ p ∈ tail, p.1 ∈ stringFields) :
    renderTemplate w (templateSource first tail) data = .ok (concatenated data first tail) ∧
    (∀ text : String, ¬ "\x7b\x7b".data <:+: text.data → renderTemplate w text data = .ok text) ∧
    (stringFieldValue data ["Repo", "Name"] = data.Repo.Name ∧
      stringFieldValue data ["Repo", "Owner"] = data.Repo.Owner ∧
      stringFieldValue data ["Repo", "Namespace"] = data.Repo.Namespace ∧
      stringFieldValue data ["Repo", "FullName"] = data.Repo.FullName ∧
      stringFieldValue data ["Repo", "CloneURL"] = data.Repo.CloneURL ∧
      stringFieldValue data ["Repo", "Branch"] = data.Repo.Branch ∧
      stringFieldValue data ["Pipeline", "Branch"] = data.Pipeline.Branch ∧
      stringFieldValue data ["Pipeline", "Commit"] = data.Pipeline.Commit ∧
      stringFieldValue data ["Pipeline", "Ref"] = data.Pipeline.Ref) ∧
    (renderTemplate w "\x7b\x7b .Repo.Owner \x7d\x7d"
        ⟨⟨"myapp", "admin", "", "", "", ""⟩, ⟨"main", "", ""⟩⟩ = .ok "admin" ∧
      renderTemplate w "dronefiles"
        ⟨⟨"myapp", "admin", "", "", "", ""⟩, ⟨"main", "", ""⟩⟩ = .ok "dronefiles" ∧
      renderTemplate w "\x7b\x7b .Pipeline.Branch \x7d\x7d"
        ⟨⟨"myapp", "admin", "", "", "", ""⟩, ⟨"main", "", ""⟩⟩ = .ok "main" ∧
      renderTemplate w "\x7b\x7b .Repo.Name \x7d\x7d/\x7b\x7b .Pipeline.Branch \x7d\x7d"
        ⟨⟨"myapp", "admin", "", "", "", ""⟩, ⟨"main", "", ""⟩⟩ = .ok "myapp/main") := by
  have hv : ∀ p ∈ tail, p.1 ≠ [] ∧ ∀ name ∈ p.1, validIdent name.data = true :=
    fun p hpm => stringField_valid p.1 (hf p hpm)
  refine ⟨?_, ?_, ⟨rfl, rfl, rfl, rfl, rfl, rfl, rfl, rfl, rfl⟩, ?_⟩
  · exact (render_templateSource w hw data first tail hp hb hv).1 _
      (expectedRender_stringFields data tail first hf)
  · intro text ht
    exact (render_templateSource w hw data text [] ht trivial (by simp)).1 text rfl
  · exact ⟨engine_ok w hw _ _ [.plain (.field ["Repo", "Owner"])] _ (by rfl) (by rfl),
      engine_ok w hw _ _ [.plain (.text "dronefiles")] _ (by rfl) (by rfl),
      engine_ok w hw _ _ [.plain (.field ["Pipeline", "Branch"])] _ (by rfl) (by rfl),
      engine_ok w hw _ _ [.plain (.field ["Repo", "Name"]), .plain (.text "/"),
        .plain (.field ["Pipeline", "Branch"])] _ (by rfl) (by rfl)⟩

/-- Witness of amended C11: the path template of the sample scenario,
`{{ .Repo.Name }}/{{ .Pipeline.Branch }}`, on the sample request. -/
theorem render_concatenates_witness :
    templateSource "" [(["Repo", "Name"], "/"), (["Pipeline", "Branch"], "")] =
      "\x7b\x7b .Repo.Name \x7d\x7d/\x7b\x7b .Pipeline.Branch \x7d\x7d" ∧
    renderTemplate templateWorld
        (templateSource "" [(["Repo", "Name"], "/"), (["Pipeline", "Branch"], "")])
        ⟨sampleRequest.Repo, sampleRequest.Pipeline⟩ = .ok "myapp/main" :=
  ⟨by rfl,
   (render_concatenates templateWorld templateEngine_templateWorld
      ⟨sampleRequest.Repo, sampleRequest.Pipeline⟩ ""
      [(["Repo", "Name"], "/"), (["Pipeline", "Branch"], "")]
      (by show ¬ _ ∧ ¬ _ ∧ ¬ _; decide) (by show ¬ _ ∧ ¬ _ ∧ True; decide)
      (by decide)).1.trans (by rfl)⟩

end Provider
